import Mathlib

/-!
# web-programming-in-go: the prefix router and the environment configuration

A shallow embedding of `examples/routes/router/router.go` and of
`examples/configuration/env/env.go`, and the properties proved about them.

Conventions of the embedding.

* A Go `string` is modelled by a Lean `String`, read as its sequence of
  characters. For UTF-8 text the byte-wise prefix relation of Go and the
  character-wise one coincide; `len` is the UTF-8 byte length.
* A function value (`http.HandlerFunc`) is a reference of an arbitrary type `H`;
  what such a function does when it is called is given by an interpretation
  `Exec H`, a state transformer on the state a handler can reach: the router it
  may have captured and the response writer it is handed.
* A call that does not return is an `Except.error`: `Halt.blocked` when it waits
  for a lock that the only running goroutine holds itself, `Halt.fatal` for a
  runtime fatal error.
* `Router.ServeHTTP` also returns the trace of what the call itself did (lock
  operations, handler calls, its own error response), which is how "the handler
  is invoked" is stated.
-/

/-! ## Library functions used by the router -/

namespace strings

/-- Go `strings.HasPrefix(s, pre)`:
`len(s) >= len(pre) && s[:len(pre)] == pre`. -/
def HasPrefix (s pre : String) : Bool :=
  decide (s.data.length ≥ pre.data.length) && (s.data.take pre.data.length == pre.data)

end strings

/-- Why a call does not return. -/
inductive Halt where
  /-- Waiting for a lock that will never be released. -/
  | blocked
  /-- Runtime fatal error, such as unlocking a mutex that is not locked. -/
  | fatal
deriving DecidableEq, Repr

namespace sync

/-- Go `sync.RWMutex`: the number of read locks held and whether the write lock
is held. The zero value is an unlocked mutex. -/
structure RWMutex where
  readers : Nat
  writer : Bool
deriving DecidableEq, Repr

namespace RWMutex

/-- The zero value: nothing is locked. -/
def zero : RWMutex := { readers := 0, writer := false }

/-- Go `RLock`: waits while the write lock is held. -/
def RLock (m : RWMutex) : Except Halt RWMutex :=
  if m.writer then .error .blocked else .ok { m with readers := m.readers + 1 }

/-- Go `RUnlock`: undoes one `RLock`; a fatal error when no read lock is held. -/
def RUnlock (m : RWMutex) : Except Halt RWMutex :=
  if m.readers = 0 then .error .fatal else .ok { m with readers := m.readers - 1 }

/-- Go `Lock`: waits while any read lock or the write lock is held. -/
def Lock (m : RWMutex) : Except Halt RWMutex :=
  if m.writer || m.readers != 0 then .error .blocked else .ok { m with writer := true }

/-- Go `Unlock`: releases the write lock; a fatal error when it is not held. -/
def Unlock (m : RWMutex) : Except Halt RWMutex :=
  if m.writer then .ok { m with writer := false } else .error .fatal

end RWMutex

end sync

namespace http

/-- The part of `*http.Request` that is relevant: `req.URL.Path`, and the method as
a representative of everything else a request carries. -/
structure Request where
  Method : String
  Path : String
deriving DecidableEq, Repr

/-- An `http.ResponseWriter`, as a recorder: the status code once the header has
been written, and the body written so far. The header map is not modelled. -/
structure ResponseWriter where
  status : Option Nat
  body : String
deriving DecidableEq, Repr

namespace ResponseWriter

/-- A response to which nothing has been written. -/
def fresh : ResponseWriter := { status := none, body := "" }

/-- Go `w.WriteHeader(code)`: only the first call has an effect. -/
def WriteHeader (w : ResponseWriter) (code : Nat) : ResponseWriter :=
  match w.status with
  | some _ => w
  | none => { w with status := some code }

/-- Go `w.Write(b)`: writes the header with status 200 if it has not been written,
then appends to the body. -/
def Write (w : ResponseWriter) (b : String) : ResponseWriter :=
  let w1 := w.WriteHeader 200
  { w1 with body := w1.body ++ b }

end ResponseWriter

/-- Go `http.StatusNotFound`. -/
def StatusNotFound : Nat := 404

/-- Go `http.Error(w, error, code)`: `w.WriteHeader(code)` followed by
`fmt.Fprintln(w, error)`, which writes the message and a newline. -/
def Error (w : ResponseWriter) (error : String) (code : Nat) : ResponseWriter :=
  (w.WriteHeader code).Write (error ++ "\n")

end http

/-! ## `examples/routes/router/router.go` -/

namespace router

/-- Go `type Route struct { Path string; Handler http.HandlerFunc }`. -/
structure Route (H : Type) where
  Path : String
  Handler : H
deriving DecidableEq, Repr

/-- Go `type Router struct { mu sync.RWMutex; routes []*Route }`. -/
structure Router (H : Type) where
  mu : sync.RWMutex
  routes : List (Route H)
deriving DecidableEq, Repr

/-- The state a handler call can reach: the router and the response writer. -/
structure State (H : Type) where
  r : Router H
  w : http.ResponseWriter
deriving DecidableEq, Repr

/-- What calling a function value does: `exec fn req s` is the state after
`fn(w, req)` returns, started in state `s`, or the reason it does not return. -/
abbrev Exec (H : Type) := H → http.Request → State H → Except Halt (State H)

/-- What one call of `ServeHTTP` does itself, in order. -/
inductive Event where
  /-- The call `r.mu.RLock()` returned. -/
  | RLock
  /-- The call `route.Handler(w, req)` was made, for the route at index `i` of `r.routes`. -/
  | Handler (i : Nat)
  /-- The call `r.mu.RUnlock()` returned. -/
  | RUnlock
  /-- The call `http.Error(w, msg, code)` was made. -/
  | Error (msg : String) (code : Nat)
deriving DecidableEq, Repr

/-- A call of `ServeHTTP`: what it did, and the state in which it returned. -/
structure Run (H : Type) where
  trace : List Event
  result : Except Halt (State H)

/-- Go `func New() *Router { return &Router{} }`. -/
def New {H : Type} : Router H := { mu := sync.RWMutex.zero, routes := [] }

/-- Go `func (r *Router) Add(p string, fn http.HandlerFunc)`. -/
def Router.Add {H : Type} (r : Router H) (p : String) (fn : H) : Except Halt (Router H) :=
  match r.mu.Lock with
  | .error e => .error e
  | .ok mu =>
    let r1 : Router H := { r with mu := mu }
    let r2 : Router H := { r1 with routes := r1.routes ++ [{ Path := p, Handler := fn }] }
    match r2.mu.Unlock with
    | .error e => .error e
    | .ok mu2 => .ok { r2 with mu := mu2 }

/-- The loop `for _, route := range r.routes` of `ServeHTTP`, over the routes still
to be tried, `i` being the index of the first of them. Returns the handler calls
made, and the state and the value of `found` when the loop ends. -/
def Router.ServeHTTP.scan {H : Type} (exec : Exec H) (req : http.Request) :
    List (Route H) → Nat → State H → List Event × Except Halt (State H × Bool)
  | [], _, s => ([], .ok (s, false))
  | route :: rest, i, s =>
    if strings.HasPrefix req.Path route.Path then
      ([Event.Handler i],
        match exec route.Handler req s with
        | .error e => .error e
        | .ok s1 => .ok (s1, true))
    else
      Router.ServeHTTP.scan exec req rest (i + 1) s

/-- Go `func (r *Router) ServeHTTP(w http.ResponseWriter, req *http.Request)`. -/
def Router.ServeHTTP {H : Type} (exec : Exec H) (s : State H) (req : http.Request) : Run H :=
  match s.r.mu.RLock with
  | .error e => { trace := [], result := .error e }
  | .ok mu =>
    let s1 : State H := { s with r := { s.r with mu := mu } }
    match Router.ServeHTTP.scan exec req s1.r.routes 0 s1 with
    | (tr, .error e) => { trace := Event.RLock :: tr, result := .error e }
    | (tr, .ok (s2, found)) =>
      match s2.r.mu.RUnlock with
      | .error e => { trace := Event.RLock :: tr, result := .error e }
      | .ok mu2 =>
        let s3 : State H := { s2 with r := { s2.r with mu := mu2 } }
        if !found then
          { trace := Event.RLock :: tr ++ [Event.RUnlock, Event.Error "404 page not found" http.StatusNotFound],
            result := .ok { s3 with w := http.Error s3.w "404 page not found" http.StatusNotFound } }
        else
          { trace := Event.RLock :: tr ++ [Event.RUnlock], result := .ok s3 }

/-- The indexes of the routes whose handler a call invoked, in order. -/
def Run.calls {H : Type} (run : Run H) : List Nat :=
  run.trace.filterMap fun e => match e with
    | Event.Handler i => some i
    | _ => none

/-- Whether the call wrote the router's own error response. -/
def Run.wroteError {H : Type} (run : Run H) : Bool :=
  run.trace.any fun e => match e with
    | Event.Error _ _ => true
    | _ => false

/-- The state in which the loop of `ServeHTTP` runs: `s` with one more read lock. -/
def State.rlocked {H : Type} (s : State H) : State H :=
  { s with r := { s.r with mu := { s.r.mu with readers := s.r.mu.readers + 1 } } }

/-- Route `rt` is at index `i` of `rs`, its Path is a prefix of `path`, and no
route at a smaller index has a Path that is a prefix of `path`. -/
def IsFirstMatch {H : Type} (rs : List (Route H)) (path : String) (i : Nat) (rt : Route H) :
    Prop :=
  rs[i]? = some rt ∧ strings.HasPrefix path rt.Path = true ∧
    ∀ q ∈ rs.take i, strings.HasPrefix path q.Path = false

instance {H : Type} [DecidableEq H] (rs : List (Route H)) (path : String) (i : Nat)
    (rt : Route H) : Decidable (IsFirstMatch rs path i rt) := by
  unfold IsFirstMatch
  infer_instance

/-- The state in which `ServeHTTP` returns when the matched handler returned in
state `s2`: the read lock is released. -/
def afterHandler {H : Type} (r : Except Halt (State H)) : Except Halt (State H) :=
  match r with
  | .error e => .error e
  | .ok s2 =>
    match s2.r.mu.RUnlock with
    | .error e => .error e
    | .ok mu2 => .ok { s2 with r := { s2.r with mu := mu2 } }

/-- Successive calls `r.Add(p, fn)`, one for each registration, in order. -/
def Router.AddAll {H : Type} (r : Router H) : List (String × H) → Except Halt (Router H)
  | [] => .ok r
  | (p, fn) :: regs =>
    match r.Add p fn with
    | .error e => .error e
    | .ok r1 => Router.AddAll r1 regs

/-! ### Handlers and routers used as concrete inputs -/

/-- Three function values. -/
inductive Sample where
  | A
  | B
  | C
deriving DecidableEq, Repr

/-- Handlers that only write to the response: each writes its own name. -/
def writeExec : Exec Sample
  | .A, _, s => .ok { s with w := s.w.Write "A" }
  | .B, _, s => .ok { s with w := s.w.Write "B" }
  | .C, _, s => .ok { s with w := s.w.Write "C" }

/-- As `writeExec`, except that `C` registers a route on the router:
`func(w, req) { r.Add("/late", A) }`. -/
def addExec : Exec Sample
  | .A, _, s => .ok { s with w := s.w.Write "A" }
  | .B, _, s => .ok { s with w := s.w.Write "B" }
  | .C, _, s =>
    match s.r.Add "/late" Sample.A with
    | .error e => .error e
    | .ok r1 => .ok { s with r := r1 }

/-- The router after `Add("/foo", A)`, `Add("/foobar", B)`. -/
def fooRouter : Router Sample :=
  { mu := sync.RWMutex.zero,
    routes := [{ Path := "/foo", Handler := .A }, { Path := "/foobar", Handler := .B }] }

/-- The router after `Add("/", A)`, `Add("/foo", B)`, `Add("/foobar", C)`. -/
def rootRouter : Router Sample :=
  { mu := sync.RWMutex.zero,
    routes := [{ Path := "/", Handler := .A }, { Path := "/foo", Handler := .B },
      { Path := "/foobar", Handler := .C }] }

/-- The router after `Add("/foo", A)`, `Add("/admin", C)`. -/
def adminRouter : Router Sample :=
  { mu := sync.RWMutex.zero,
    routes := [{ Path := "/foo", Handler := .A }, { Path := "/admin", Handler := .C }] }

/-- The router after `Add("/foo", A)`, `Add("", B)`. -/
def catchAllRouter : Router Sample :=
  { mu := sync.RWMutex.zero,
    routes := [{ Path := "/foo", Handler := .A }, { Path := "", Handler := .B }] }

/-- A `GET` request for a path. -/
def get (path : String) : http.Request := { Method := "GET", Path := path }

end router

/-! ## Library functions used by the configuration example -/

namespace strconv

/-- The two errors of `strconv`: `ErrSyntax` and `ErrRange`. -/
inductive Err where
  | ErrSyntax
  | ErrRange
deriving DecidableEq, Repr

/-- Go `maxUint64`. -/
def maxUint64 : Nat := 2 ^ 64 - 1

/-- Go `int64(x)`: the value of `x` wrapped to 64 bits, two's complement. -/
def int64 (x : Int) : Int := (x + 2 ^ 63) % 2 ^ 64 - 2 ^ 63

/-- Go `int(x)` for an `int` of `IntSize` bits. -/
def int (IntSize : Nat) (x : Int) : Int :=
  (x + 2 ^ (IntSize - 1)) % 2 ^ IntSize - 2 ^ (IntSize - 1)

/-- The digit a byte stands for in `ParseUint`: `c - '0'` for a decimal digit,
`lower(c) - 'a' + 10` for a letter, and nothing otherwise (`lower(c)` is
`c | ('x' - 'X')`). A character that is not ASCII is a sequence of bytes none of
which is a digit or a letter. -/
def ParseUint.digit (c : Char) : Option Nat :=
  let b := c.toNat
  if 48 ≤ b ∧ b ≤ 57 then some (b - 48)
  else if b < 128 ∧ 97 ≤ (b ||| 32) ∧ (b ||| 32) ≤ 122 then some ((b ||| 32) - 97 + 10)
  else none

/-- The loop of `ParseUint` for base 10 over the bytes still to be read, `n` being
the value read so far; `n` is a `uint64`. -/
def ParseUint.loop (maxVal : Nat) : List Char → Nat → Nat × Option Err
  | [], n => (n, none)
  | c :: cs, n =>
    match ParseUint.digit c with
    | none => (0, some Err.ErrSyntax)
    | some d =>
      if d ≥ 10 then (0, some Err.ErrSyntax)
      else if n ≥ maxUint64 / 10 + 1 then (maxVal, some Err.ErrRange)
      else
        let n10 := (n * 10) % 2 ^ 64
        let n1 := (n10 + d) % 2 ^ 64
        if n1 < n10 ∨ n1 > maxVal then (maxVal, some Err.ErrRange)
        else ParseUint.loop maxVal cs n1

/-- Go `strconv.ParseUint(s, 10, 0)`, the bit size 0 standing for `IntSize`. -/
def ParseUint (IntSize : Nat) (s : List Char) : Nat × Option Err :=
  if s = [] then (0, some Err.ErrSyntax)
  else ParseUint.loop ((2 ^ IntSize - 1) % 2 ^ 64) s 0

/-- The part of `ParseInt` that follows the call of `ParseUint`: the error is passed
on when it is not a range error, and the unsigned value `un` is checked against
the range of a signed integer of `IntSize` bits. -/
def ParseInt.signed (IntSize : Nat) (neg : Bool) : Nat × Option Err → Int × Option Err
  | (_, some Err.ErrSyntax) => (0, some Err.ErrSyntax)
  | (un, _) =>
    let cutoff : Nat := (2 ^ (IntSize - 1)) % 2 ^ 64
    if !neg ∧ un ≥ cutoff then (int64 (cutoff - 1 : Nat), some Err.ErrRange)
    else if neg ∧ un > cutoff then (int64 (-(int64 cutoff)), some Err.ErrRange)
    else
      let n := int64 un
      (if neg then int64 (-n) else n, none)

/-- Go `strconv.ParseInt(s, 10, 0)`. -/
def ParseInt (IntSize : Nat) (s : List Char) : Int × Option Err :=
  if s = [] then (0, some Err.ErrSyntax)
  else
    let neg : Bool := s.head? == some '-'
    let body := if s.head? = some '+' then s.tail else if s.head? = some '-' then s.tail else s
    ParseInt.signed IntSize neg (ParseUint IntSize body)

/-- The loop of the fast path of `Atoi`: `ch -= '0'; if ch > 9 { syntax error };
n = n*10 + int(ch)`. Nothing is returned on the error. -/
def Atoi.loop : List Char → Int → Option Int
  | [], n => some n
  | c :: cs, n =>
    if 48 ≤ c.toNat ∧ c.toNat ≤ 57 then Atoi.loop cs (n * 10 + ((c.toNat - 48 : Nat) : Int))
    else none

/-- The fast path of `Atoi`, "for small integers that fit int type", on the bytes
`s0` of the string. The length test that guards it keeps `n` below `10 ^ 18`
(`10 ^ 9` for a 32-bit `int`), so that `n*10 + int(ch)` does not overflow. -/
def Atoi.fast (s0 : List Char) : Int × Option Err :=
  let signed : Bool := s0.head? == some '-' || s0.head? == some '+'
  let body := if signed then s0.tail else s0
  if signed ∧ body.length < 1 then (0, some Err.ErrSyntax)
  else
    match Atoi.loop body 0 with
    | none => (0, some Err.ErrSyntax)
    | some n => (if s0.head? == some '-' then -n else n, none)

/-- Go `strconv.Atoi(s)`: the value and the error returned. -/
def Atoi (IntSize : Nat) (s : String) : Int × Option Err :=
  let sLen := s.utf8ByteSize
  if (IntSize = 32 ∧ 0 < sLen ∧ sLen < 10) ∨ (IntSize = 64 ∧ 0 < sLen ∧ sLen < 19) then
    Atoi.fast s.data
  else
    let r := ParseInt IntSize s.data
    (int IntSize r.1, r.2)

/-- The characters `0` to `9`. -/
def IsDigit (c : Char) : Prop := 48 ≤ c.toNat ∧ c.toNat ≤ 57

instance (c : Char) : Decidable (IsDigit c) := by
  unfold IsDigit
  infer_instance

/-- The number written by the decimal digits `ds` after the digits of `n`. -/
def decimalFrom (n : Nat) (ds : List Char) : Nat :=
  ds.foldl (fun m c => m * 10 + (c.toNat - 48)) n

/-- The number written by a sequence of decimal digits. -/
def decimal (ds : List Char) : Nat := decimalFrom 0 ds

/-- The signed integer of `IntSize` bits of the largest magnitude, of the given
sign. -/
def limit (IntSize : Nat) (neg : Bool) : Int :=
  if neg then -(2 ^ (IntSize - 1)) else 2 ^ (IntSize - 1) - 1

/-- A string read as an optional sign `sg` followed by `body`: `neg` tells whether
the sign is a minus, and without a sign `body` does not begin with one. -/
def IsSign (sg : List Char) (neg : Bool) (body : List Char) : Prop :=
  (sg = [] ∧ neg = false ∧ body.head? ≠ some '+' ∧ body.head? ≠ some '-') ∨
  (sg = ['+'] ∧ neg = false) ∨ (sg = ['-'] ∧ neg = true)

instance (sg : List Char) (neg : Bool) (body : List Char) : Decidable (IsSign sg neg body) := by
  unfold IsSign
  infer_instance

end strconv

namespace os

/-- Go `os.Getenv(key)`: the value of the variable, empty when it is not set. -/
def Getenv (environ : String → Option String) (key : String) : String :=
  (environ key).getD ""

end os

namespace net

/-- The errors with which listening on an address fails. -/
inductive ListenError where
  /-- The address has no port part: "missing port in address". -/
  | MissingPort
  /-- The port part is not a number: "unknown port". -/
  | UnknownPort
  /-- The port is a number outside 0 to 65535: "invalid port". -/
  | InvalidPort
  /-- The operating system does not let the process listen on the port. -/
  | Refused
deriving DecidableEq, Repr

/-- The loop of `net.parsePort` over the characters still to be read, `n` being
the value read so far, a `uint32`: the value at the end of the loop, which a
`break` sets to the largest `uint32`, or nothing when a character is not a digit
(the service is then a name to look up). -/
def parsePort.loop : List Char → Nat → Option Nat
  | [], n => some n
  | d :: rest, n =>
    if 48 ≤ d.toNat ∧ d.toNat ≤ 57 then
      if n ≥ 2 ^ 30 then some (2 ^ 32 - 1)
      else
        let n10 := (n * 10) % 2 ^ 32
        let nn := (n10 + (d.toNat - 48)) % 2 ^ 32
        if nn < n10 ∨ nn > 2 ^ 32 - 1 then some (2 ^ 32 - 1)
        else parsePort.loop rest nn
    else none

/-- Go `net.parsePort(service)`: the port that an optional sign and decimal digits
stand for, clamped to a magnitude of `2 ^ 30`, or nothing when the service is not
a number and needs a lookup. The empty service stands for port 0. -/
def parsePort (service : List Char) : Option Int :=
  if service = [] then some 0
  else
    let neg : Bool := service.head? == some '-'
    let body :=
      if service.head? = some '+' then service.tail
      else if service.head? = some '-' then service.tail else service
    match parsePort.loop body 0 with
    | none => none
    | some n =>
      let port : Int :=
        if !neg ∧ n ≥ 2 ^ 30 then ((2 ^ 30 - 1 : Nat) : Int)
        else if neg ∧ n > 2 ^ 30 then ((2 ^ 30 : Nat) : Int)
        else (n : Int)
      some (if neg then -port else port)

/-- Go `net.LookupPort("tcp", service)`: a port outside 0 to 65535 is an invalid
port. Service names are not resolved: `main` only builds numeric addresses. -/
def LookupPort (service : List Char) : Except ListenError Int :=
  match parsePort service with
  | none => .error ListenError.UnknownPort
  | some port =>
    if 0 > port ∨ port > 65535 then .error ListenError.InvalidPort else .ok port

end net

namespace http

/-- Go `http.ListenAndServe(addr, nil)` for an address with an empty host, `:`
followed by the port: the error it returns, or nothing when the server listens and
serves, in which case the call does not return. `canListen port` tells whether the
operating system lets the process listen on the port (on any free port, for 0). An
address of another shape is not built by `main`; it is reported as an address
without a port. -/
def ListenAndServe (canListen : Int → Bool) (addr : String) : Option net.ListenError :=
  match addr.data with
  | ':' :: service =>
    match net.LookupPort service with
    | .error e => some e
    | .ok port => if canListen port then none else some net.ListenError.Refused
  | _ => some net.ListenError.MissingPort

end http

/-! ## `examples/configuration/env/env.go` -/

namespace env

/-- Go `type Config struct { Port int }`. -/
structure Config where
  Port : Int
deriving DecidableEq, Repr

/-- Go `var config = &Config{Port: 3000}`. -/
def config : Config := { Port := 3000 }

/-- A run of `main`. -/
structure Run where
  /-- The configuration `config` when `http.ListenAndServe` is called. -/
  config : Config
  /-- The error handed to `log.Print`, if any. -/
  logged : Option strconv.Err
  /-- The address handed to `http.ListenAndServe`. -/
  addr : String
  /-- The error that `http.ListenAndServe` returned and that `log.Fatal` reported
  before ending the process; nothing when the server listens and serves. -/
  fatal : Option net.ListenError
deriving DecidableEq, Repr

/-- Go `func main()` of `env.go`, for an `int` of `IntSize` bits, the environment
`environ` and an operating system that lets the process listen on the ports for
which `canListen` holds. The line it prints and the handler it registers, which
do not bear on the port, are left out. -/
def main (IntSize : Nat) (canListen : Int → Bool) (environ : String → Option String) : Run :=
  let portEnv := os.Getenv environ "MY_SERVER_PORT"
  let step : Config × Option strconv.Err :=
    if portEnv.utf8ByteSize > 0 then
      match strconv.Atoi IntSize portEnv with
      | (port, err) => ({ config with Port := port }, err)
    else (config, none)
  let addr := ":" ++ toString step.1.Port
  { config := step.1, logged := step.2, addr := addr,
    fatal := http.ListenAndServe canListen addr }

/-- The environment in which `MY_SERVER_PORT` has the given value, or is not set. -/
def environWith (value : Option String) : String → Option String :=
  fun key => if key = "MY_SERVER_PORT" then value else none

/-- An operating system that lets the process listen on every port. -/
def anyPort : Int → Bool := fun _ => true

end env
/-! ## Properties of `strings.HasPrefix` and of the dispatch loop -/

namespace strings

theorem HasPrefix_iff_data (s pre : String) :
    HasPrefix s pre = true ↔ pre.data <+: s.data := by
  unfold HasPrefix
  rw [Bool.and_eq_true, decide_eq_true_eq, beq_iff_eq, List.prefix_iff_eq_take]
  constructor
  · rintro ⟨_, h⟩
    exact h.symm
  · intro h
    refine ⟨?_, h.symm⟩
    have := congrArg List.length h
    rw [List.length_take] at this
    omega

theorem HasPrefix_iff_append (s pre : String) :
    HasPrefix s pre = true ↔ ∃ t : String, s = pre ++ t := by
  rw [HasPrefix_iff_data]
  constructor
  · rintro ⟨t, ht⟩
    refine ⟨⟨t⟩, ?_⟩
    apply String.ext
    rw [String.data_append, ← ht]
  · rintro ⟨t, rfl⟩
    exact ⟨t.data, by rw [String.data_append]⟩

theorem HasPrefix_empty (s : String) : HasPrefix s "" = true := by
  rw [HasPrefix_iff_data]
  exact List.nil_prefix

theorem HasPrefix_self (s : String) : HasPrefix s s = true := by
  rw [HasPrefix_iff_data]

end strings

namespace router

open http sync

section lemmas

variable {H : Type}

theorem scan_cons_miss (exec : Exec H) (req : Request) (q : Route H) (qs : List (Route H))
    (i : Nat) (s : State H) (hq : strings.HasPrefix req.Path q.Path = false) :
    Router.ServeHTTP.scan exec req (q :: qs) i s = Router.ServeHTTP.scan exec req qs (i + 1) s := by
  rw [Router.ServeHTTP.scan, hq, if_neg Bool.false_ne_true]

theorem scan_skip (exec : Exec H) (req : Request) (pre rest : List (Route H)) (i : Nat)
    (s : State H) (hpre : ∀ q ∈ pre, strings.HasPrefix req.Path q.Path = false) :
    Router.ServeHTTP.scan exec req (pre ++ rest) i s
      = Router.ServeHTTP.scan exec req rest (i + pre.length) s := by
  induction pre generalizing i with
  | nil => simp
  | cons q qs ih =>
    have hq : strings.HasPrefix req.Path q.Path = false := hpre q (List.mem_cons_self _ _)
    have hqs : ∀ x ∈ qs, strings.HasPrefix req.Path x.Path = false :=
      fun x hx => hpre x (List.mem_cons_of_mem _ hx)
    rw [List.cons_append, scan_cons_miss exec req q (qs ++ rest) i s hq, ih (i + 1) hqs,
      List.length_cons, Nat.add_assoc, Nat.add_comm 1]

theorem scan_none (exec : Exec H) (req : Request) (rs : List (Route H)) (i : Nat)
    (s : State H) (hrs : ∀ q ∈ rs, strings.HasPrefix req.Path q.Path = false) :
    Router.ServeHTTP.scan exec req rs i s = ([], .ok (s, false)) := by
  have h := scan_skip exec req rs [] i s hrs
  rw [List.append_nil] at h
  rw [h]
  rfl

theorem scan_hit (exec : Exec H) (req : Request) (rt : Route H) (post : List (Route H))
    (i : Nat) (s : State H) (hrt : strings.HasPrefix req.Path rt.Path = true) :
    Router.ServeHTTP.scan exec req (rt :: post) i s
      = ([Event.Handler i],
          match exec rt.Handler req s with
          | .error e => .error e
          | .ok s1 => .ok (s1, true)) := by
  simp only [Router.ServeHTTP.scan, hrt, if_true]

/-- A route list either has a first route matching the path, or none. -/
theorem first_hit_or_none (path : String) (rs : List (Route H)) :
    (∀ q ∈ rs, strings.HasPrefix path q.Path = false) ∨
    ∃ pre rt post, rs = pre ++ rt :: post ∧
      (∀ q ∈ pre, strings.HasPrefix path q.Path = false) ∧
      strings.HasPrefix path rt.Path = true := by
  induction rs with
  | nil => left; simp
  | cons q qs ih =>
    by_cases hq : strings.HasPrefix path q.Path = true
    · right
      exact ⟨[], q, qs, rfl, by simp, hq⟩
    · have hq2 : strings.HasPrefix path q.Path = false := by simpa using hq
      rcases ih with h | ⟨pre, rt, post, h1, h2, h3⟩
      · left
        intro x hx
        rcases List.mem_cons.mp hx with rfl | hx
        · exact hq2
        · exact h x hx
      · right
        refine ⟨q :: pre, rt, post, by rw [h1]; rfl, ?_, h3⟩
        intro x hx
        rcases List.mem_cons.mp hx with rfl | hx
        · exact hq2
        · exact h2 x hx


/-- What `ServeHTTP` does when no route matches. -/
theorem serve_miss (exec : Exec H) (s : State H) (req : Request)
    (hw : s.r.mu.writer = false)
    (hrs : ∀ q ∈ s.r.routes, strings.HasPrefix req.Path q.Path = false) :
    Router.ServeHTTP exec s req =
      { trace := [Event.RLock, Event.RUnlock, Event.Error "404 page not found" 404],
        result := .ok { s with w := http.Error s.w "404 page not found" 404 } } := by
  obtain ⟨⟨⟨rd, wr⟩, rs⟩, w⟩ := s
  simp only at hw hrs
  subst hw
  unfold Router.ServeHTTP
  simp only [RWMutex.RLock, Bool.false_eq_true, if_false]
  rw [scan_none exec req _ 0 _ hrs]
  simp [RWMutex.RUnlock, StatusNotFound]

/-- What `ServeHTTP` does when the first matching route is `rt`, after `pre`. -/
theorem serve_hit (exec : Exec H) (s : State H) (req : Request)
    (pre : List (Route H)) (rt : Route H) (post : List (Route H))
    (hw : s.r.mu.writer = false)
    (hrs : s.r.routes = pre ++ rt :: post)
    (hpre : ∀ q ∈ pre, strings.HasPrefix req.Path q.Path = false)
    (hrt : strings.HasPrefix req.Path rt.Path = true) :
    Router.ServeHTTP exec s req =
      match exec rt.Handler req s.rlocked with
      | .error e => { trace := [Event.RLock, Event.Handler pre.length], result := .error e }
      | .ok s2 =>
        match s2.r.mu.RUnlock with
        | .error e => { trace := [Event.RLock, Event.Handler pre.length], result := .error e }
        | .ok mu2 =>
          { trace := [Event.RLock, Event.Handler pre.length, Event.RUnlock],
            result := .ok { s2 with r := { s2.r with mu := mu2 } } } := by
  obtain ⟨⟨⟨rd, wr⟩, rs⟩, w⟩ := s
  simp only at hw hrs
  subst hw hrs
  unfold Router.ServeHTTP
  simp only [RWMutex.RLock, Bool.false_eq_true, if_false, State.rlocked]
  rw [scan_skip exec req pre (rt :: post) 0 _ hpre, scan_hit exec req rt post _ _ hrt]
  simp only [Nat.zero_add]
  cases exec rt.Handler req _ with
  | error e => rfl
  | ok s2 =>
    simp only
    cases s2.r.mu.RUnlock with
    | error e => rfl
    | ok mu2 => rfl

/-- The trace of a dispatch that finds its first match at index `pre.length`. -/
theorem serve_hit_trace (exec : Exec H) (s : State H) (req : Request)
    (pre : List (Route H)) (rt : Route H) (post : List (Route H))
    (hw : s.r.mu.writer = false)
    (hrs : s.r.routes = pre ++ rt :: post)
    (hpre : ∀ q ∈ pre, strings.HasPrefix req.Path q.Path = false)
    (hrt : strings.HasPrefix req.Path rt.Path = true) :
    (Router.ServeHTTP exec s req).trace = [Event.RLock, Event.Handler pre.length] ∨
    (Router.ServeHTTP exec s req).trace
      = [Event.RLock, Event.Handler pre.length, Event.RUnlock] := by
  rw [serve_hit exec s req pre rt post hw hrs hpre hrt]
  cases exec rt.Handler req s.rlocked with
  | error e => exact Or.inl rfl
  | ok s2 =>
    simp only
    cases s2.r.mu.RUnlock with
    | error e => exact Or.inl rfl
    | ok mu2 => exact Or.inr rfl


theorem split_of_getElem? (rs : List (Route H)) (i : Nat) (rt : Route H)
    (hi : rs[i]? = some rt) :
    rs = rs.take i ++ rt :: rs.drop (i + 1) ∧ (rs.take i).length = i := by
  rcases List.getElem?_eq_some.mp hi with ⟨hlen, hget⟩
  constructor
  · rw [← hget, ← List.drop_eq_getElem_cons hlen, List.take_append_drop]
  · rw [List.length_take]; omega

/-- Everything a dispatch with a first match at index `i` does. -/
theorem hit_facts (exec : Exec H) (s : State H) (req : Request) (i : Nat) (rt : Route H)
    (hw : s.r.mu.writer = false) (hm : IsFirstMatch s.r.routes req.Path i rt) :
    (Router.ServeHTTP exec s req).calls = [i] ∧
    (Router.ServeHTTP exec s req).wroteError = false ∧
    (∀ k, Event.Handler k ∈ (Router.ServeHTTP exec s req).trace ↔ k = i) ∧
    ((Router.ServeHTTP exec s req).trace = [Event.RLock, Event.Handler i] ∨
      (Router.ServeHTTP exec s req).trace = [Event.RLock, Event.Handler i, Event.RUnlock]) ∧
    (Router.ServeHTTP exec s req).result = afterHandler (exec rt.Handler req s.rlocked) := by
  obtain ⟨hi, hrt, hpre⟩ := hm
  obtain ⟨hsplit, hlen⟩ := split_of_getElem? s.r.routes i rt hi
  have htr := serve_hit_trace exec s req _ rt _ hw hsplit hpre hrt
  have hres := serve_hit exec s req _ rt _ hw hsplit hpre hrt
  rw [hlen] at htr hres
  refine ⟨?_, ?_, ?_, htr, ?_⟩
  · rcases htr with h | h <;> simp [Run.calls, h]
  · rcases htr with h | h <;> simp [Run.wroteError, h]
  · intro k
    rcases htr with h | h <;> simp [h]
  · rw [hres]
    unfold afterHandler
    cases exec rt.Handler req s.rlocked with
    | error e => rfl
    | ok s2 =>
      simp only
      cases s2.r.mu.RUnlock with
      | error e => rfl
      | ok mu2 => rfl

/-- Every route list has, for a given path, a first matching route or none. -/
theorem isFirstMatch_or_none (path : String) (rs : List (Route H)) :
    (∀ q ∈ rs, strings.HasPrefix path q.Path = false) ∨ ∃ i rt, IsFirstMatch rs path i rt := by
  rcases first_hit_or_none path rs with h | ⟨pre, rt, post, h1, h2, h3⟩
  · exact Or.inl h
  · right
    refine ⟨pre.length, rt, ?_, h3, ?_⟩
    · rw [h1, List.getElem?_append_right (Nat.le_refl _), Nat.sub_self]
      simp
    · rw [h1]; simpa using h2

/-- The first matching route is unique. -/
theorem isFirstMatch_unique (path : String) (rs : List (Route H)) (i j : Nat)
    (p q : Route H) (hp : IsFirstMatch rs path i p) (hq : IsFirstMatch rs path j q) :
    i = j ∧ p = q := by
  obtain ⟨hi, hpm, hpl⟩ := hp
  obtain ⟨hj, hqm, hql⟩ := hq
  have hij : i = j := by
    rcases Nat.lt_trichotomy i j with h | h | h
    · exfalso
      have hmem : p ∈ rs.take j := by
        rw [List.mem_iff_getElem?]
        exact ⟨i, by rw [List.getElem?_take_of_lt h]; exact hi⟩
      have := hql p hmem
      rw [hpm] at this
      exact Bool.noConfusion this
    · exact h
    · exfalso
      have hmem : q ∈ rs.take i := by
        rw [List.mem_iff_getElem?]
        exact ⟨j, by rw [List.getElem?_take_of_lt h]; exact hj⟩
      have := hpl q hmem
      rw [hqm] at this
      exact Bool.noConfusion this
  subst hij
  rw [hi] at hj
  exact ⟨rfl, Option.some.inj hj⟩

/-- A matching route at index `i` puts the first match at an index no larger. -/
theorem isFirstMatch_le (path : String) (rs : List (Route H)) (i k : Nat) (p rt : Route H)
    (hi : rs[i]? = some p) (hp : strings.HasPrefix path p.Path = true)
    (hk : IsFirstMatch rs path k rt) : k ≤ i := by
  by_contra hlt
  have hlt2 : i < k := by omega
  have hmem : p ∈ rs.take k := by
    rw [List.mem_iff_getElem?]
    exact ⟨i, by rw [List.getElem?_take_of_lt hlt2]; exact hi⟩
  have := hk.2.2 p hmem
  rw [hp] at this
  exact Bool.noConfusion this

/-- A route list with a matching route has a first matching route. -/
theorem exists_isFirstMatch (path : String) (rs : List (Route H)) (p : Route H)
    (hmem : p ∈ rs) (hp : strings.HasPrefix path p.Path = true) :
    ∃ k rt, IsFirstMatch rs path k rt := by
  rcases isFirstMatch_or_none path rs with h | h
  · have := h p hmem
    rw [hp] at this
    exact Bool.noConfusion this
  · exact h

/-- What a dispatch does when no route matches. -/
theorem miss_facts (exec : Exec H) (s : State H) (req : Request)
    (hw : s.r.mu.writer = false)
    (hrs : ∀ q ∈ s.r.routes, strings.HasPrefix req.Path q.Path = false) :
    (Router.ServeHTTP exec s req).calls = [] ∧
    (Router.ServeHTTP exec s req).wroteError = true ∧
    (Router.ServeHTTP exec s req).trace
      = [Event.RLock, Event.RUnlock, Event.Error "404 page not found" 404] ∧
    (Router.ServeHTTP exec s req).result
      = .ok { s with w := http.Error s.w "404 page not found" 404 } := by
  rw [serve_miss exec s req hw hrs]
  exact ⟨rfl, rfl, rfl, rfl⟩


/-- A registered route whose Path is a prefix of the request path: the router
writes no error response and invokes exactly one handler, of a route registered
no later; it is this route when no earlier one matches. -/
theorem registered_match_facts (exec : Exec H) (s : State H) (req : Request)
    (i : Nat) (rt : Route H) (hw : s.r.mu.writer = false)
    (hi : s.r.routes[i]? = some rt) (hrt : strings.HasPrefix req.Path rt.Path = true) :
    (Router.ServeHTTP exec s req).wroteError = false ∧
    (∃ k, k ≤ i ∧ (Router.ServeHTTP exec s req).calls = [k]) ∧
    ((∀ q ∈ s.r.routes.take i, strings.HasPrefix req.Path q.Path = false) →
      (Router.ServeHTTP exec s req).calls = [i] ∧
      (Router.ServeHTTP exec s req).result = afterHandler (exec rt.Handler req s.rlocked)) := by
  have hmem : rt ∈ s.r.routes := List.mem_iff_getElem?.mpr ⟨i, hi⟩
  obtain ⟨k, rt2, hk⟩ := exists_isFirstMatch req.Path s.r.routes rt hmem hrt
  have hki : k ≤ i := isFirstMatch_le req.Path s.r.routes i k rt rt2 hi hrt hk
  obtain ⟨h1, h2, _, _, _⟩ := hit_facts exec s req k rt2 hw hk
  refine ⟨h2, ⟨k, hki, h1⟩, ?_⟩
  intro hpre
  obtain ⟨g1, _, _, _, g5⟩ := hit_facts exec s req i rt hw ⟨hi, hrt, hpre⟩
  exact ⟨g1, g5⟩

/-- Appending routes does not change the first match. -/
theorem isFirstMatch_append (path : String) (rs extra : List (Route H)) (i : Nat)
    (rt : Route H) (hm : IsFirstMatch rs path i rt) : IsFirstMatch (rs ++ extra) path i rt := by
  obtain ⟨hi, hrt, hpre⟩ := hm
  have hlen : i < rs.length := (List.getElem?_eq_some.mp hi).1
  refine ⟨?_, hrt, ?_⟩
  · rw [List.getElem?_append_left hlen]
    exact hi
  · rw [List.take_append_of_le_length (Nat.le_of_lt hlen)]
    exact hpre

/-- A route appended to a list in which nothing matches is the first match when
it matches. -/
theorem isFirstMatch_appended (path : String) (rs : List (Route H)) (rt : Route H)
    (hrs : ∀ q ∈ rs, strings.HasPrefix path q.Path = false)
    (hrt : strings.HasPrefix path rt.Path = true) :
    IsFirstMatch (rs ++ [rt]) path rs.length rt := by
  refine ⟨?_, hrt, ?_⟩
  · rw [List.getElem?_append_right (Nat.le_refl _), Nat.sub_self]
    simp
  · rw [List.take_left]
    exact hrs

/-- On a router whose lock is free, `Add` appends the route and returns. -/
theorem Add_of_free (r : Router H) (p : String) (fn : H) (hfree : r.mu = RWMutex.zero) :
    r.Add p fn = .ok { r with routes := r.routes ++ [{ Path := p, Handler := fn }] } := by
  obtain ⟨mu, rs⟩ := r
  simp only at hfree
  subst hfree
  rfl

/-- While a read lock is held, `Add` cannot take the write lock. -/
theorem Add_blocked_of_reader (r : Router H) (p : String) (fn : H)
    (hrd : r.mu.readers ≠ 0) : r.Add p fn = .error Halt.blocked := by
  unfold Router.Add
  simp [RWMutex.Lock, hrd]

/-- The release of the read lock after the handler leaves the response as the
handler left it. -/
theorem afterHandler_ok (r : Except Halt (State H)) (s3 : State H)
    (h : afterHandler r = .ok s3) : ∃ s2, r = .ok s2 ∧ s3.w = s2.w := by
  unfold afterHandler at h
  cases r with
  | error e => exact Except.noConfusion h
  | ok s2 =>
    refine ⟨s2, rfl, ?_⟩
    simp only at h
    cases hu : s2.r.mu.RUnlock with
    | error e =>
      rw [hu] at h
      exact Except.noConfusion h
    | ok mu2 =>
      rw [hu] at h
      rw [← Except.ok.inj h]

end lemmas

end router

/-! ## The claims about the router -/

namespace router

open http sync

/-- C1 (as stated, refuted): with `/`, `/foo` and `/foobar` registered in this order
and the path `/foobar`, the routes `/foo` and `/foobar` are both prefixes of the
path, `/foo` is registered before `/foobar`, and yet the handler of `/foo` (index 1)
is not invoked: the handler of `/` (index 0) is. -/
theorem C1_earlier_route_shadows_pair :
    rootRouter.routes[1]? = some { Path := "/foo", Handler := Sample.B } ∧
    rootRouter.routes[2]? = some { Path := "/foobar", Handler := Sample.C } ∧
    strings.HasPrefix "/foobar" "/foo" = true ∧
    strings.HasPrefix "/foobar" "/foobar" = true ∧
    Event.Handler 1 ∉ (Router.ServeHTTP writeExec ⟨rootRouter, .fresh⟩ (get "/foobar")).trace ∧
    (Router.ServeHTTP writeExec ⟨rootRouter, .fresh⟩ (get "/foobar")).trace
      = [Event.RLock, Event.Handler 0, Event.RUnlock] := by
  decide

/-- C1 (amended): a dispatch that can take the read lock invokes the handler of
the first route, in registration order, whose Path is a prefix of the request
path, and the handler of no other route; the call returns what that handler
returns, the read lock released. For two routes at indexes `i < j` that are both
prefixes of the path, the handler of the later one is never invoked, and the
handler of the earlier one is invoked exactly when no route registered before
it is a prefix of the path. `strings.HasPrefix` is the literal prefix relation:
`a` has prefix `b` exactly when `a` is `b` followed by some string. -/
theorem C1_first_match_in_registration_order {H : Type} (exec : Exec H) (s : State H)
    (req : Request) (hw : s.r.mu.writer = false) :
    (∀ i rt, IsFirstMatch s.r.routes req.Path i rt →
      (Router.ServeHTTP exec s req).calls = [i] ∧
      (∀ k, Event.Handler k ∈ (Router.ServeHTTP exec s req).trace ↔ k = i) ∧
      (Router.ServeHTTP exec s req).result = afterHandler (exec rt.Handler req s.rlocked)) ∧
    (∀ i j p1 p2, i < j → s.r.routes[i]? = some p1 → s.r.routes[j]? = some p2 →
      strings.HasPrefix req.Path p1.Path = true → strings.HasPrefix req.Path p2.Path = true →
      Event.Handler j ∉ (Router.ServeHTTP exec s req).trace ∧
      (Event.Handler i ∈ (Router.ServeHTTP exec s req).trace ↔
        ∀ q ∈ s.r.routes.take i, strings.HasPrefix req.Path q.Path = false)) ∧
    (∀ a b : String, strings.HasPrefix a b = true ↔ ∃ t : String, a = b ++ t) := by
  refine ⟨?_, ?_, strings.HasPrefix_iff_append⟩
  · intro i rt hm
    obtain ⟨h1, _, h3, _, h5⟩ := hit_facts exec s req i rt hw hm
    exact ⟨h1, h3, h5⟩
  · intro i j p1 p2 hij hi hj hp1 hp2
    have hmem : p1 ∈ s.r.routes := List.mem_iff_getElem?.mpr ⟨i, hi⟩
    obtain ⟨k, rt, hk⟩ := exists_isFirstMatch req.Path s.r.routes p1 hmem hp1
    have hki : k ≤ i := isFirstMatch_le req.Path s.r.routes i k p1 rt hi hp1 hk
    obtain ⟨_, _, h3, _, _⟩ := hit_facts exec s req k rt hw hk
    constructor
    · rw [h3]; omega
    · rw [h3]
      constructor
      · intro h
        subst h
        exact hk.2.2
      · intro h
        exact (isFirstMatch_unique req.Path s.r.routes i k p1 rt ⟨hi, hp1, h⟩ hk).1

/-- C1 (amended), at a concrete input: `Add("/foo", A)`, `Add("/foobar", B)`, path
`/foobar` invokes `A`, the handler of the route at index 0, and not `B`. -/
theorem C1_first_match_in_registration_order_witness :
    (Router.ServeHTTP writeExec ⟨fooRouter, .fresh⟩ (get "/foobar")).calls = [0] ∧
    (∀ k, Event.Handler k ∈ (Router.ServeHTTP writeExec ⟨fooRouter, .fresh⟩ (get "/foobar")).trace
      ↔ k = 0) ∧
    (Router.ServeHTTP writeExec ⟨fooRouter, .fresh⟩ (get "/foobar")).result
      = afterHandler (writeExec Sample.A (get "/foobar") (State.rlocked ⟨fooRouter, .fresh⟩)) ∧
    Event.Handler 1 ∉ (Router.ServeHTTP writeExec ⟨fooRouter, .fresh⟩ (get "/foobar")).trace :=
  have h := C1_first_match_in_registration_order writeExec ⟨fooRouter, .fresh⟩ (get "/foobar") rfl
  have h1 := h.1 0 { Path := "/foo", Handler := Sample.A } (by decide)
  have h2 := h.2.1 0 1 { Path := "/foo", Handler := Sample.A }
    { Path := "/foobar", Handler := Sample.B } (by decide) rfl rfl (by decide) (by decide)
  ⟨h1.1, h1.2.1, h1.2.2, h2.1⟩

end router

namespace router

open http sync

/-- C2: when no registered route has a Path that is a prefix of the request path
(in particular when no route is registered), a dispatch that can take the read
lock invokes no handler; it takes and releases the lock, calls
`http.Error(w, "404 page not found", 404)` and returns. On a response whose
header has not been written, the status becomes 404 and the body gains the line
`404 page not found`. -/
theorem C2_no_match_gives_404 {H : Type} (exec : Exec H) (s : State H) (req : Request)
    (hw : s.r.mu.writer = false)
    (hnone : ∀ q ∈ s.r.routes, strings.HasPrefix req.Path q.Path = false) :
    (Router.ServeHTTP exec s req).calls = [] ∧
    (∀ k, Event.Handler k ∉ (Router.ServeHTTP exec s req).trace) ∧
    (Router.ServeHTTP exec s req).trace
      = [Event.RLock, Event.RUnlock, Event.Error "404 page not found" 404] ∧
    (Router.ServeHTTP exec s req).result
      = .ok { s with w := http.Error s.w "404 page not found" 404 } ∧
    (s.w.status = none →
      (http.Error s.w "404 page not found" 404).status = some 404 ∧
      (http.Error s.w "404 page not found" 404).body = s.w.body ++ "404 page not found\n") := by
  obtain ⟨h1, _, h3, h4⟩ := miss_facts exec s req hw hnone
  refine ⟨h1, ?_, h3, h4, ?_⟩
  · intro k
    rw [h3]
    simp
  · intro hst
    simp [http.Error, ResponseWriter.Write, ResponseWriter.WriteHeader, hst]

/-- C2, at a concrete input: routes `/foo` and `/foobar`, path `/baz`. -/
theorem C2_no_match_gives_404_witness :
    (Router.ServeHTTP writeExec ⟨fooRouter, .fresh⟩ (get "/baz")).calls = [] ∧
    (Router.ServeHTTP writeExec ⟨fooRouter, .fresh⟩ (get "/baz")).result
      = .ok ⟨fooRouter, { status := some 404, body := "404 page not found\n" }⟩ :=
  have h := C2_no_match_gives_404 writeExec ⟨fooRouter, .fresh⟩ (get "/baz") rfl (by decide)
  ⟨h.1, h.2.2.2.1⟩

/-- C3: one call of `ServeHTTP` invokes at most one route handler. A call that can
take the read lock writes the router's own error response exactly when it invoked
no handler: when it invoked none, it returns with the response that
`http.Error(w, "404 page not found", 404)` leaves (status 404 and the message line
on a response whose header was not written); when it invoked one, whatever it
returns carries the response as that handler left it, the router having written
nothing. When a route matches and its handler returns, the call did nothing but
take the lock, call that handler and release the lock, and the response it leaves
is the one the handler left. -/
theorem C3_zero_or_one_handler {H : Type} (exec : Exec H) (s : State H) (req : Request)
    (hw : s.r.mu.writer = false) :
    (Router.ServeHTTP exec s req).calls.length ≤ 1 ∧
    ((Router.ServeHTTP exec s req).wroteError = true ↔
      (Router.ServeHTTP exec s req).calls = []) ∧
    (∀ i rt s2, IsFirstMatch s.r.routes req.Path i rt →
      exec rt.Handler req s.rlocked = .ok s2 → s2.r.mu.readers ≠ 0 →
      (Router.ServeHTTP exec s req).trace = [Event.RLock, Event.Handler i, Event.RUnlock] ∧
      ∃ s3, (Router.ServeHTTP exec s req).result = .ok s3 ∧ s3.w = s2.w) ∧
    ((Router.ServeHTTP exec s req).calls = [] →
      (Router.ServeHTTP exec s req).result
        = .ok { s with w := http.Error s.w "404 page not found" 404 } ∧
      (s.w.status = none →
        (http.Error s.w "404 page not found" 404).status = some 404 ∧
        (http.Error s.w "404 page not found" 404).body
          = s.w.body ++ "404 page not found\n")) ∧
    ((Router.ServeHTTP exec s req).calls ≠ [] →
      ∃ i rt, IsFirstMatch s.r.routes req.Path i rt ∧
        (Router.ServeHTTP exec s req).calls = [i] ∧
        ∀ s3, (Router.ServeHTTP exec s req).result = .ok s3 →
          ∃ s2, exec rt.Handler req s.rlocked = .ok s2 ∧ s3.w = s2.w) := by
  refine ⟨?_, ?_, ?_, ?_, ?_⟩
  · rcases isFirstMatch_or_none req.Path s.r.routes with h | ⟨i, rt, h⟩
    · rw [(miss_facts exec s req hw h).1]
      simp
    · rw [(hit_facts exec s req i rt hw h).1]
      simp
  · rcases isFirstMatch_or_none req.Path s.r.routes with h | ⟨i, rt, h⟩
    · obtain ⟨h1, h2, _, _⟩ := miss_facts exec s req hw h
      rw [h1, h2]
      simp
    · obtain ⟨h1, h2, _, _, _⟩ := hit_facts exec s req i rt hw h
      rw [h1, h2]
      simp
  · intro i rt s2 hm hex hrd
    obtain ⟨_, _, _, h4, h5⟩ := hit_facts exec s req i rt hw hm
    rw [hex] at h5
    have hres : (Router.ServeHTTP exec s req).result
        = .ok { s2 with r := { s2.r with mu := { s2.r.mu with readers := s2.r.mu.readers - 1 } } } := by
      rw [h5]
      simp [afterHandler, RWMutex.RUnlock, hrd]
    refine ⟨?_, _, hres, rfl⟩
    rcases h4 with h | h
    · exfalso
      obtain ⟨hi, hrt, hpre⟩ := hm
      obtain ⟨hsplit, hlen⟩ := split_of_getElem? s.r.routes i rt hi
      have := serve_hit exec s req _ rt _ hw hsplit hpre hrt
      rw [hex] at this
      simp only [RWMutex.RUnlock, hrd, if_false] at this
      rw [this] at h
      simp at h
    · exact h
  · intro hcalls
    rcases isFirstMatch_or_none req.Path s.r.routes with h | ⟨i, rt, h⟩
    · refine ⟨(miss_facts exec s req hw h).2.2.2, ?_⟩
      intro hst
      simp [http.Error, ResponseWriter.Write, ResponseWriter.WriteHeader, hst]
    · rw [(hit_facts exec s req i rt hw h).1] at hcalls
      exact absurd hcalls (List.cons_ne_nil _ _)
  · intro hcalls
    rcases isFirstMatch_or_none req.Path s.r.routes with h | ⟨i, rt, h⟩
    · exact absurd (miss_facts exec s req hw h).1 hcalls
    · obtain ⟨h1, _, _, _, h5⟩ := hit_facts exec s req i rt hw h
      refine ⟨i, rt, h, h1, ?_⟩
      intro s3 hres
      rw [h5] at hres
      exact afterHandler_ok _ s3 hres

/-- C3, at concrete inputs: routes `/foo` and `/foobar`. For the path `/foobar` only
the handler of `/foo` runs and the response is the one it wrote; for the path
`/baz` no handler runs and the response is the router's 404. -/
theorem C3_zero_or_one_handler_witness :
    (Router.ServeHTTP writeExec ⟨fooRouter, .fresh⟩ (get "/foobar")).calls.length ≤ 1 ∧
    (Router.ServeHTTP writeExec ⟨fooRouter, .fresh⟩ (get "/foobar")).trace
      = [Event.RLock, Event.Handler 0, Event.RUnlock] ∧
    (∃ s3, (Router.ServeHTTP writeExec ⟨fooRouter, .fresh⟩ (get "/foobar")).result = .ok s3 ∧
      s3.w = { status := some 200, body := "A" }) ∧
    (Router.ServeHTTP writeExec ⟨fooRouter, .fresh⟩ (get "/baz")).calls = [] ∧
    (Router.ServeHTTP writeExec ⟨fooRouter, .fresh⟩ (get "/baz")).result
      = .ok ⟨fooRouter, { status := some 404, body := "404 page not found\n" }⟩ :=
  have h := C3_zero_or_one_handler writeExec ⟨fooRouter, .fresh⟩ (get "/foobar") rfl
  have h3 := h.2.2.1 0 { Path := "/foo", Handler := Sample.A }
    ⟨{ fooRouter with mu := { readers := 1, writer := false } }, { status := some 200, body := "A" }⟩
    (by decide) rfl (by decide)
  have g := (C3_zero_or_one_handler writeExec ⟨fooRouter, .fresh⟩ (get "/baz") rfl).2.2.2.1
    (by decide)
  ⟨h.1, h3.1, h3.2, by decide, g.1⟩

/-- C4: `New` returns a router with an empty route list and an unlocked mutex. On
a router whose lock is free, `Add(p, fn)` returns and changes nothing but the route
list, which becomes the previous list with the one route `{p, fn}` appended: the
routes already registered keep their index and content, the new route is the last,
and it is appended also when its prefix is already registered. Hence the route
list after a sequence of registrations on a new router is that sequence. -/
theorem C4_Add_appends_in_call_order {H : Type} (r : Router H) (p : String) (fn : H)
    (hfree : r.mu = RWMutex.zero) :
    (New : Router H).routes = [] ∧ (New : Router H).mu = RWMutex.zero ∧
    r.Add p fn = .ok { r with routes := r.routes ++ [{ Path := p, Handler := fn }] } ∧
    (∀ r1, r.Add p fn = .ok r1 →
      r1.routes.length = r.routes.length + 1 ∧
      (∀ i, i < r.routes.length → r1.routes[i]? = r.routes[i]?) ∧
      r1.routes[r.routes.length]? = some { Path := p, Handler := fn }) ∧
    (∀ regs : List (String × H),
      (New : Router H).AddAll regs
        = .ok { mu := RWMutex.zero,
                routes := regs.map (fun x => { Path := x.1, Handler := x.2 }) }) := by
  have hadd : ∀ (r0 : Router H) (q : String) (g : H), r0.mu = RWMutex.zero →
      r0.Add q g = .ok { r0 with routes := r0.routes ++ [{ Path := q, Handler := g }] } := by
    intro r0 q g h0
    obtain ⟨mu, rs⟩ := r0
    simp only at h0
    subst h0
    rfl
  refine ⟨rfl, rfl, hadd r p fn hfree, ?_, ?_⟩
  · intro r1 h1
    rw [hadd r p fn hfree] at h1
    have h2 : r1 = { r with routes := r.routes ++ [{ Path := p, Handler := fn }] } :=
      (Except.ok.inj h1).symm
    subst h2
    refine ⟨by simp, ?_, by simp⟩
    intro i hi
    simp only
    rw [List.getElem?_append_left hi]
  · have hall : ∀ (regs : List (String × H)) (r0 : Router H), r0.mu = RWMutex.zero →
        r0.AddAll regs
          = .ok ⟨RWMutex.zero, r0.routes ++ regs.map (fun x => ⟨x.1, x.2⟩)⟩ := by
      intro regs
      induction regs with
      | nil =>
        intro r0 h0
        obtain ⟨mu, rs⟩ := r0
        simp only at h0
        subst h0
        simp [Router.AddAll]
      | cons x xs ih =>
        intro r0 h0
        obtain ⟨q, g⟩ := x
        unfold Router.AddAll
        rw [hadd r0 q g h0]
        simp only
        rw [ih { mu := r0.mu, routes := r0.routes ++ [{ Path := q, Handler := g }] } h0]
        simp
    intro regs
    have := hall regs New rfl
    simpa [New] using this

/-- C4, at a concrete input: registering `/foo` a second time on the router with
routes `/foo` and `/foobar` appends a third route and keeps the first two. -/
theorem C4_Add_appends_in_call_order_witness :
    fooRouter.Add "/foo" Sample.C
      = .ok { fooRouter with routes :=
          [{ Path := "/foo", Handler := Sample.A }, { Path := "/foobar", Handler := Sample.B },
           { Path := "/foo", Handler := Sample.C }] } ∧
    (New : Router Sample).AddAll [("/foo", Sample.A), ("/foobar", Sample.B)] = .ok fooRouter :=
  have h := C4_Add_appends_in_call_order fooRouter "/foo" Sample.C rfl
  ⟨h.2.2.1, h.2.2.2.2 [("/foo", Sample.A), ("/foobar", Sample.B)]⟩

end router

namespace router

open http sync

/-- C5 (as stated, refuted): with `/foo` and `/admin` registered, the handler of
`/admin` being one that calls `Add` on the same router, a dispatch of `/admin`
takes the read lock, calls the handler and never returns: the handler runs while
the read lock is held (one reader), the `Add` inside it waits for the write lock
for ever, and the read lock is never released. Called on the router outside of a
dispatch, the same handler returns. -/
theorem C5_handler_calling_Add_blocks :
    (Router.ServeHTTP addExec ⟨adminRouter, .fresh⟩ (get "/admin")).trace
      = [Event.RLock, Event.Handler 1] ∧
    (Router.ServeHTTP addExec ⟨adminRouter, .fresh⟩ (get "/admin")).result
      = .error Halt.blocked ∧
    (State.rlocked ⟨adminRouter, .fresh⟩).r.mu.readers = 1 ∧
    addExec Sample.C (get "/admin") (State.rlocked ⟨adminRouter, .fresh⟩) = .error Halt.blocked ∧
    (addExec Sample.C (get "/admin") ⟨adminRouter, .fresh⟩).isOk = true :=
  ⟨by decide, rfl, rfl, rfl, rfl⟩

/-- C5 (amended): `ServeHTTP` takes the read lock before the scan. When the scan
reaches the end of the list without a match, the lock is released before the
error response is written. When a route matches, its handler is called inside the
scan, in a state in which the read lock is held, and the lock is released only once
the handler has returned; in that state a call of `Add` on the same router cannot
take the write lock and blocks. -/
theorem C5_read_lock_held_while_handler_runs {H : Type} (exec : Exec H) (s : State H)
    (req : Request) (hw : s.r.mu.writer = false) :
    (∀ i rt, IsFirstMatch s.r.routes req.Path i rt →
      (Router.ServeHTTP exec s req).result = afterHandler (exec rt.Handler req s.rlocked) ∧
      s.rlocked.r.mu.readers = s.r.mu.readers + 1 ∧
      ((Router.ServeHTTP exec s req).trace = [Event.RLock, Event.Handler i] ∨
        (Router.ServeHTTP exec s req).trace = [Event.RLock, Event.Handler i, Event.RUnlock]) ∧
      (∀ p fn, s.rlocked.r.Add p fn = .error Halt.blocked)) ∧
    ((∀ q ∈ s.r.routes, strings.HasPrefix req.Path q.Path = false) →
      (Router.ServeHTTP exec s req).trace
        = [Event.RLock, Event.RUnlock, Event.Error "404 page not found" 404]) := by
  constructor
  · intro i rt hm
    obtain ⟨_, _, _, h4, h5⟩ := hit_facts exec s req i rt hw hm
    refine ⟨h5, rfl, h4, ?_⟩
    intro p fn
    apply Add_blocked_of_reader
    simp [State.rlocked]
  · intro hnone
    exact (miss_facts exec s req hw hnone).2.2.1

/-- C5 (amended), at a concrete input: routes `/foo` and `/foobar`, path `/foobar`. -/
theorem C5_read_lock_held_while_handler_runs_witness :
    (Router.ServeHTTP writeExec ⟨fooRouter, .fresh⟩ (get "/foobar")).result
      = afterHandler (writeExec Sample.A (get "/foobar") (State.rlocked ⟨fooRouter, .fresh⟩)) ∧
    (State.rlocked ⟨fooRouter, .fresh⟩).r.mu.readers = 0 + 1 ∧
    (∀ p fn, (State.rlocked ⟨fooRouter, .fresh⟩).r.Add p fn = .error Halt.blocked) :=
  have h := (C5_read_lock_held_while_handler_runs writeExec ⟨fooRouter, .fresh⟩ (get "/foobar")
    rfl).1 0 { Path := "/foo", Handler := Sample.A } (by decide)
  ⟨h.1, h.2.1, h.2.2.2⟩

/-- C6: when a route with the empty prefix is registered, every request path
matches it: a dispatch that can take the read lock never writes the error response
and invokes exactly one handler, of that route or of an earlier one; it invokes
the handler of the empty-prefix route whenever no route registered before it has a
Path that is a prefix of the request path. -/
theorem C6_empty_prefix_matches_every_path {H : Type} (exec : Exec H) (s : State H)
    (req : Request) (i : Nat) (rt : Route H) (hw : s.r.mu.writer = false)
    (hi : s.r.routes[i]? = some rt) (hempty : rt.Path = "") :
    strings.HasPrefix req.Path rt.Path = true ∧
    (Router.ServeHTTP exec s req).wroteError = false ∧
    (∃ k, k ≤ i ∧ (Router.ServeHTTP exec s req).calls = [k]) ∧
    ((∀ q ∈ s.r.routes.take i, strings.HasPrefix req.Path q.Path = false) →
      (Router.ServeHTTP exec s req).calls = [i] ∧
      (Router.ServeHTTP exec s req).result = afterHandler (exec rt.Handler req s.rlocked)) := by
  have hrt : strings.HasPrefix req.Path rt.Path = true := by
    rw [hempty]
    exact strings.HasPrefix_empty req.Path
  exact ⟨hrt, registered_match_facts exec s req i rt hw hi hrt⟩

/-- C6, at a concrete input: routes `/foo` and the empty prefix, path `/baz`; the
handler of the empty-prefix route, at index 1, is invoked. -/
theorem C6_empty_prefix_matches_every_path_witness :
    (Router.ServeHTTP writeExec ⟨catchAllRouter, .fresh⟩ (get "/baz")).wroteError = false ∧
    (Router.ServeHTTP writeExec ⟨catchAllRouter, .fresh⟩ (get "/baz")).calls = [1] :=
  have h := C6_empty_prefix_matches_every_path writeExec ⟨catchAllRouter, .fresh⟩ (get "/baz") 1
    { Path := "", Handler := Sample.B } rfl rfl rfl
  ⟨h.2.1, (h.2.2.2 (by decide)).1⟩

/-- C7: a request whose path is equal to the Path of a registered route matches
that route: a dispatch that can take the read lock does not write the error
response and invokes exactly one handler, of that route or of an earlier one; it
invokes the handler of that route whenever no route registered before it has a
Path that is a prefix of the request path. -/
theorem C7_exact_path_matches {H : Type} (exec : Exec H) (s : State H)
    (req : Request) (i : Nat) (rt : Route H) (hw : s.r.mu.writer = false)
    (hi : s.r.routes[i]? = some rt) (heq : req.Path = rt.Path) :
    strings.HasPrefix req.Path rt.Path = true ∧
    (Router.ServeHTTP exec s req).wroteError = false ∧
    (∃ k, k ≤ i ∧ (Router.ServeHTTP exec s req).calls = [k]) ∧
    ((∀ q ∈ s.r.routes.take i, strings.HasPrefix req.Path q.Path = false) →
      (Router.ServeHTTP exec s req).calls = [i] ∧
      (Router.ServeHTTP exec s req).result = afterHandler (exec rt.Handler req s.rlocked)) := by
  have hrt : strings.HasPrefix req.Path rt.Path = true := by
    rw [heq]
    exact strings.HasPrefix_self rt.Path
  exact ⟨hrt, registered_match_facts exec s req i rt hw hi hrt⟩

/-- C7, at a concrete input: routes `/foo` and `/admin`, path `/admin`; the handler
of `/admin`, at index 1, is invoked. -/
theorem C7_exact_path_matches_witness :
    (Router.ServeHTTP writeExec ⟨adminRouter, .fresh⟩ (get "/admin")).wroteError = false ∧
    (Router.ServeHTTP writeExec ⟨adminRouter, .fresh⟩ (get "/admin")).calls = [1] :=
  have h := C7_exact_path_matches writeExec ⟨adminRouter, .fresh⟩ (get "/admin") 1
    { Path := "/admin", Handler := Sample.C } rfl rfl rfl
  ⟨h.2.1, (h.2.2.2 (by decide)).1⟩

end router

namespace router

open http sync

/-- C8: which handler a dispatch invokes, and whether it writes the error
response, depends only on the route list and the request path: two dispatches
that can take the read lock, on states with the same route list and for requests
with the same path, make the same selection, whatever the handlers do and whatever
else the requests and responses hold. When handlers leave the router as they find
it (none calls `Add`), a dispatch returns as soon as no route matches or the
matched handler returns, and it leaves the route list and the lock as they were,
so that a second dispatch of the same path selects the same route again. -/
theorem C8_dispatch_deterministic {H : Type} (exec : Exec H) (s : State H) (req : Request)
    (hw : s.r.mu.writer = false)
    (hkeep : ∀ fn q σ σ2, exec fn q σ = .ok σ2 → σ2.r = σ.r) :
    (∀ (exec2 : Exec H) (s2 : State H) (req2 : Request),
      s2.r.routes = s.r.routes → s2.r.mu.writer = false → req2.Path = req.Path →
      (Router.ServeHTTP exec2 s2 req2).calls = (Router.ServeHTTP exec s req).calls ∧
      (Router.ServeHTTP exec2 s2 req2).wroteError = (Router.ServeHTTP exec s req).wroteError) ∧
    (∀ s1, (Router.ServeHTTP exec s req).result = .ok s1 →
      s1.r = s.r ∧
      ∀ req2 : Request, req2.Path = req.Path →
        (Router.ServeHTTP exec s1 req2).calls = (Router.ServeHTTP exec s req).calls ∧
        (Router.ServeHTTP exec s1 req2).wroteError
          = (Router.ServeHTTP exec s req).wroteError) ∧
    ((∀ q ∈ s.r.routes, strings.HasPrefix req.Path q.Path = false) ∨
      (∃ i rt s2, IsFirstMatch s.r.routes req.Path i rt ∧
        exec rt.Handler req s.rlocked = .ok s2) →
      ∃ s1, (Router.ServeHTTP exec s req).result = .ok s1) := by
  have hsame : ∀ (exec2 : Exec H) (s2 : State H) (req2 : Request),
      s2.r.routes = s.r.routes → s2.r.mu.writer = false → req2.Path = req.Path →
      (Router.ServeHTTP exec2 s2 req2).calls = (Router.ServeHTTP exec s req).calls ∧
      (Router.ServeHTTP exec2 s2 req2).wroteError
        = (Router.ServeHTTP exec s req).wroteError := by
    intro exec2 s2 req2 hrs hw2 hpath
    rcases isFirstMatch_or_none req.Path s.r.routes with h | ⟨i, rt, h⟩
    · obtain ⟨a1, a2, _, _⟩ := miss_facts exec s req hw h
      obtain ⟨b1, b2, _, _⟩ := miss_facts exec2 s2 req2 hw2 (by rw [hrs, hpath]; exact h)
      rw [a1, a2, b1, b2]
      exact ⟨rfl, rfl⟩
    · obtain ⟨a1, a2, _, _, _⟩ := hit_facts exec s req i rt hw h
      obtain ⟨b1, b2, _, _, _⟩ := hit_facts exec2 s2 req2 i rt hw2 (by rw [hrs, hpath]; exact h)
      rw [a1, a2, b1, b2]
      exact ⟨rfl, rfl⟩
  have hr : ∀ s1, (Router.ServeHTTP exec s req).result = .ok s1 → s1.r = s.r := by
    intro s1 hres
    rcases isFirstMatch_or_none req.Path s.r.routes with h | ⟨i, rt, h⟩
    · rw [(miss_facts exec s req hw h).2.2.2] at hres
      rw [← Except.ok.inj hres]
    · rw [(hit_facts exec s req i rt hw h).2.2.2.2] at hres
      unfold afterHandler at hres
      cases hex : exec rt.Handler req s.rlocked with
      | error e =>
        rw [hex] at hres
        exact Except.noConfusion hres
      | ok s2 =>
        rw [hex] at hres
        have hk := hkeep _ _ _ _ hex
        have hrd : s2.r.mu.readers = s.r.mu.readers + 1 := by rw [hk]; rfl
        simp only [RWMutex.RUnlock, hrd, Nat.add_one_ne_zero, if_false] at hres
        rw [← Except.ok.inj hres, hk]
        obtain ⟨⟨⟨rd, wr⟩, rs⟩, w⟩ := s
        simp [State.rlocked]
  refine ⟨hsame, ?_, ?_⟩
  · intro s1 hres
    refine ⟨hr s1 hres, ?_⟩
    intro req2 hpath
    exact hsame exec s1 req2 (by rw [hr s1 hres]) (by rw [hr s1 hres]; exact hw) hpath
  · rintro (h | ⟨i, rt, s2, hm, hex⟩)
    · exact ⟨_, (miss_facts exec s req hw h).2.2.2⟩
    · have hk := hkeep _ _ _ _ hex
      have hrd : s2.r.mu.readers = s.r.mu.readers + 1 := by rw [hk]; rfl
      rw [(hit_facts exec s req i rt hw hm).2.2.2.2, hex]
      simp [afterHandler, RWMutex.RUnlock, hrd]

/-- C8, at a concrete input: routes `/foo` and `/foobar`; a `GET` and a `POST`
of `/foobar` select the same route, the dispatch returns and the router is
unchanged afterwards. -/
theorem C8_dispatch_deterministic_witness :
    (Router.ServeHTTP writeExec ⟨fooRouter, { status := some 200, body := "x" }⟩
        { Method := "POST", Path := "/foobar" }).calls
      = (Router.ServeHTTP writeExec ⟨fooRouter, .fresh⟩ (get "/foobar")).calls ∧
    (∀ s1, (Router.ServeHTTP writeExec ⟨fooRouter, .fresh⟩ (get "/foobar")).result = .ok s1 →
      s1.r = fooRouter) ∧
    ∃ s1, (Router.ServeHTTP writeExec ⟨fooRouter, .fresh⟩ (get "/foobar")).result = .ok s1 :=
  have hkeep : ∀ fn q σ σ2, writeExec fn q σ = .ok σ2 → σ2.r = σ.r := by
    intro fn q σ σ2 h
    cases fn <;> (rw [← Except.ok.inj h])
  have h := C8_dispatch_deterministic writeExec ⟨fooRouter, .fresh⟩ (get "/foobar") rfl hkeep
  ⟨(h.1 writeExec ⟨fooRouter, { status := some 200, body := "x" }⟩
      { Method := "POST", Path := "/foobar" } rfl rfl rfl).1,
    fun s1 h1 => (h.2.1 s1 h1).1,
    h.2.2 (Or.inr ⟨0, { Path := "/foo", Handler := Sample.A }, _, by decide, rfl⟩)⟩

/-- C9: on a state whose lock is free, `Add(p, fn)` returns a router with the route
appended, and a dispatch on that router relates to a dispatch on the old one as
follows. If some route of the old list matches the path, the first match is the
same route at the same index and its handler is the one invoked. If no route of the
old list matches, the dispatch invokes the handler of the new route, `fn`, when `p`
is a prefix of the path, and otherwise invokes no handler and returns with the
response that `http.Error(w, "404 page not found", 404)` leaves: status 404 and the
message line, on a response whose header was not written. -/
theorem C9_later_registration_keeps_routing {H : Type} (exec : Exec H) (s : State H)
    (req : Request) (p : String) (fn : H) (hfree : s.r.mu = RWMutex.zero) :
    ∃ r1, s.r.Add p fn = .ok r1 ∧
      r1.routes = s.r.routes ++ [{ Path := p, Handler := fn }] ∧
      (∀ i rt, IsFirstMatch s.r.routes req.Path i rt →
        IsFirstMatch r1.routes req.Path i rt ∧
        (Router.ServeHTTP exec s req).calls = [i] ∧
        (Router.ServeHTTP exec { s with r := r1 } req).calls = [i] ∧
        (Router.ServeHTTP exec { s with r := r1 } req).wroteError = false) ∧
      ((∃ q ∈ s.r.routes, strings.HasPrefix req.Path q.Path = true) →
        (Router.ServeHTTP exec { s with r := r1 } req).calls
          = (Router.ServeHTTP exec s req).calls) ∧
      ((∀ q ∈ s.r.routes, strings.HasPrefix req.Path q.Path = false) →
        (strings.HasPrefix req.Path p = true →
          (Router.ServeHTTP exec { s with r := r1 } req).calls = [s.r.routes.length] ∧
          (Router.ServeHTTP exec { s with r := r1 } req).result
            = afterHandler (exec fn req (State.rlocked { s with r := r1 }))) ∧
        (strings.HasPrefix req.Path p = false →
          (Router.ServeHTTP exec { s with r := r1 } req).calls = [] ∧
          (Router.ServeHTTP exec { s with r := r1 } req).trace
            = [Event.RLock, Event.RUnlock, Event.Error "404 page not found" 404] ∧
          (Router.ServeHTTP exec { s with r := r1 } req).result
            = .ok { r := r1, w := http.Error s.w "404 page not found" 404 } ∧
          (s.w.status = none →
            (http.Error s.w "404 page not found" 404).status = some 404 ∧
            (http.Error s.w "404 page not found" 404).body
              = s.w.body ++ "404 page not found\n"))) := by
  have hw : s.r.mu.writer = false := by rw [hfree]; rfl
  refine ⟨{ s.r with routes := s.r.routes ++ [{ Path := p, Handler := fn }] },
    Add_of_free s.r p fn hfree, rfl, ?_, ?_, ?_⟩
  · intro i rt hm
    have hm2 := isFirstMatch_append req.Path s.r.routes [{ Path := p, Handler := fn }] i rt hm
    refine ⟨hm2, (hit_facts exec s req i rt hw hm).1, ?_, ?_⟩
    · exact (hit_facts exec
        { s with r := { s.r with routes := s.r.routes ++ [{ Path := p, Handler := fn }] } }
        req i rt hw hm2).1
    · exact (hit_facts exec
        { s with r := { s.r with routes := s.r.routes ++ [{ Path := p, Handler := fn }] } }
        req i rt hw hm2).2.1
  · rintro ⟨q, hq, hqm⟩
    obtain ⟨i, rt, hm⟩ := exists_isFirstMatch req.Path s.r.routes q hq hqm
    have hm2 := isFirstMatch_append req.Path s.r.routes [{ Path := p, Handler := fn }] i rt hm
    rw [(hit_facts exec s req i rt hw hm).1]
    exact (hit_facts exec
      { s with r := { s.r with routes := s.r.routes ++ [{ Path := p, Handler := fn }] } }
      req i rt hw hm2).1
  · intro hnone
    constructor
    · intro hp
      have hm := isFirstMatch_appended req.Path s.r.routes { Path := p, Handler := fn } hnone hp
      obtain ⟨h1, _, _, _, h5⟩ := hit_facts exec
        { s with r := { s.r with routes := s.r.routes ++ [{ Path := p, Handler := fn }] } }
        req _ _ hw hm
      exact ⟨h1, h5⟩
    · intro hp
      have hall : ∀ q ∈ s.r.routes ++ [{ Path := p, Handler := fn }],
          strings.HasPrefix req.Path q.Path = false := by
        intro q hq
        rcases List.mem_append.mp hq with h | h
        · exact hnone q h
        · rw [List.mem_singleton.mp h]
          exact hp
      obtain ⟨h1, _, h3, h4⟩ := miss_facts exec
        { s with r := { s.r with routes := s.r.routes ++ [{ Path := p, Handler := fn }] } }
        req hw hall
      refine ⟨h1, h3, h4, ?_⟩
      intro hst
      simp [http.Error, ResponseWriter.Write, ResponseWriter.WriteHeader, hst]

/-- C9, at concrete inputs: on the router with routes `/foo` and `/foobar`,
registering `/baz` afterwards makes `/baz/x` reach the new route, at index 2, and
leaves `/foobar` routed to the route at index 0; a path that still matches nothing,
`/nope`, gets the 404 response. -/
theorem C9_later_registration_keeps_routing_witness :
    ∃ r1, fooRouter.Add "/baz" Sample.C = .ok r1 ∧
      (Router.ServeHTTP writeExec ⟨r1, .fresh⟩ (get "/baz/x")).calls = [2] ∧
      (Router.ServeHTTP writeExec ⟨r1, .fresh⟩ (get "/foobar")).calls = [0] ∧
      (Router.ServeHTTP writeExec ⟨r1, .fresh⟩ (get "/nope")).result
        = .ok ⟨r1, { status := some 404, body := "404 page not found\n" }⟩ :=
  have h := C9_later_registration_keeps_routing writeExec ⟨fooRouter, .fresh⟩ (get "/baz/x")
    "/baz" Sample.C rfl
  have g := C9_later_registration_keeps_routing writeExec ⟨fooRouter, .fresh⟩ (get "/nope")
    "/baz" Sample.C rfl
  have h2 : fooRouter.Add "/baz" Sample.C
      = .ok { fooRouter with routes := fooRouter.routes ++ [{ Path := "/baz", Handler := Sample.C }] } :=
    rfl
  ⟨_, h2, by
    obtain ⟨r1, hadd, _, _, _, hmiss⟩ := h
    rw [h2] at hadd
    rw [Except.ok.inj hadd]
    exact ((hmiss (by decide)).1 (by decide)).1, by decide, by
    obtain ⟨r1, hadd, _, _, _, hmiss⟩ := g
    rw [h2] at hadd
    rw [Except.ok.inj hadd]
    exact ((hmiss (by decide)).2 (by decide)).2.2.1⟩

end router

/-! ## Properties of `strconv.Atoi` -/

namespace strconv

theorem digit_of_isDigit (c : Char) (hc : IsDigit c) :
    ParseUint.digit c = some (c.toNat - 48) ∧ c.toNat - 48 < 10 := by
  obtain ⟨h1, h2⟩ := hc
  constructor
  · unfold ParseUint.digit
    simp only [h1, h2, and_self, if_true]
  · omega

theorem uloop_bad (maxVal : Nat) (c : Char) (rest : List Char) (n : Nat) (hc : ¬ IsDigit c) :
    ParseUint.loop maxVal (c :: rest) n = (0, some Err.ErrSyntax) := by
  have hd : ParseUint.digit c = none ∨ ∃ d, ParseUint.digit c = some d ∧ d ≥ 10 := by
    unfold IsDigit at hc
    unfold ParseUint.digit
    simp only [hc, if_false]
    by_cases h : c.toNat < 128 ∧ 97 ≤ (c.toNat ||| 32) ∧ (c.toNat ||| 32) ≤ 122
    · rw [if_pos h]
      exact Or.inr ⟨_, rfl, by omega⟩
    · rw [if_neg h]
      exact Or.inl rfl
  rw [ParseUint.loop]
  rcases hd with h | ⟨d, h, hd10⟩
  · rw [h]
  · rw [h]
    simp only
    rw [if_pos hd10]

theorem decimalFrom_nil (n : Nat) : decimalFrom n [] = n := rfl

theorem decimalFrom_cons (n : Nat) (c : Char) (ds : List Char) :
    decimalFrom n (c :: ds) = decimalFrom (n * 10 + (c.toNat - 48)) ds := rfl

theorem decimalFrom_ge (ds : List Char) (n : Nat) : n ≤ decimalFrom n ds := by
  induction ds generalizing n with
  | nil => exact Nat.le_refl n
  | cons c cs ih =>
    rw [decimalFrom_cons]
    have := ih (n * 10 + (c.toNat - 48))
    omega

theorem decimalFrom_lt (ds : List Char) (n : Nat) (hds : ∀ c ∈ ds, IsDigit c) :
    decimalFrom n ds < (n + 1) * 10 ^ ds.length := by
  induction ds generalizing n with
  | nil => simp [decimalFrom_nil]
  | cons c cs ih =>
    rw [decimalFrom_cons, List.length_cons]
    have hc := hds c (List.mem_cons_self _ _)
    have h := ih (n * 10 + (c.toNat - 48)) (fun x hx => hds x (List.mem_cons_of_mem _ hx))
    have hle : (n * 10 + (c.toNat - 48) + 1) ≤ (n + 1) * 10 := by
      unfold IsDigit at hc
      omega
    calc decimalFrom (n * 10 + (c.toNat - 48)) cs
        < (n * 10 + (c.toNat - 48) + 1) * 10 ^ cs.length := h
      _ ≤ ((n + 1) * 10) * 10 ^ cs.length := Nat.mul_le_mul_right _ hle
      _ = (n + 1) * 10 ^ (cs.length + 1) := by rw [Nat.pow_succ]; ring

theorem decimal_lt (ds : List Char) (hds : ∀ c ∈ ds, IsDigit c) :
    decimal ds < 10 ^ ds.length := by
  have := decimalFrom_lt ds 0 hds
  simpa [decimal] using this

/-- The loop of `ParseUint` over a run of digits: it reads them all when the number
they write is at most `maxVal`, and reports a range error otherwise. -/
theorem uloop_digits (maxVal : Nat) (hmax : maxVal < 2 ^ 64) (ds rest : List Char) (n : Nat)
    (hds : ∀ c ∈ ds, IsDigit c) (hn : n ≤ maxVal) :
    ParseUint.loop maxVal (ds ++ rest) n =
      if decimalFrom n ds ≤ maxVal then ParseUint.loop maxVal rest (decimalFrom n ds)
      else (maxVal, some Err.ErrRange) := by
  induction ds generalizing n with
  | nil => simp [decimalFrom_nil, hn]
  | cons c cs ih =>
    have hc := hds c (List.mem_cons_self _ _)
    have hcs : ∀ x ∈ cs, IsDigit x := fun x hx => hds x (List.mem_cons_of_mem _ hx)
    obtain ⟨hd, hd10⟩ := digit_of_isDigit c hc
    have hge := decimalFrom_ge cs (n * 10 + (c.toNat - 48))
    rw [List.cons_append, decimalFrom_cons]
    rw [ParseUint.loop]
    simp only [hd, ge_iff_le]
    rw [if_neg (by omega)]
    norm_num [maxUint64] at hmax ⊢
    by_cases hcut : 1844674407370955162 ≤ n
    · rw [if_pos hcut, if_neg (by omega)]
    · rw [if_neg hcut]
      have h10 : n * 10 % 18446744073709551616 = n * 10 := Nat.mod_eq_of_lt (by omega)
      rw [h10]
      by_cases hwrap : n * 10 + (c.toNat - 48) < 18446744073709551616
      · have h1 : (n * 10 + (c.toNat - 48)) % 18446744073709551616 = n * 10 + (c.toNat - 48) :=
          Nat.mod_eq_of_lt hwrap
        rw [h1]
        by_cases hover : maxVal < n * 10 + (c.toNat - 48)
        · rw [if_pos (Or.inr hover), if_neg (by omega)]
        · rw [if_neg (by omega), ih (n * 10 + (c.toNat - 48)) hcs (by omega)]
      · rw [if_pos (Or.inl (by omega)), if_neg (by omega)]

/-- The loop of the fast path of `Atoi` over a run of digits. -/
theorem fast_digits (ds rest : List Char) (n : Nat) (hds : ∀ c ∈ ds, IsDigit c) :
    Atoi.loop (ds ++ rest) (n : Int) = Atoi.loop rest (decimalFrom n ds : Int) := by
  induction ds generalizing n with
  | nil => rfl
  | cons c cs ih =>
    have hc := hds c (List.mem_cons_self _ _)
    have hcs : ∀ x ∈ cs, IsDigit x := fun x hx => hds x (List.mem_cons_of_mem _ hx)
    rw [List.cons_append, decimalFrom_cons, ← ih _ hcs]
    unfold IsDigit at hc
    rw [Atoi.loop, if_pos hc]
    push_cast
    rfl

theorem fast_bad (c : Char) (rest : List Char) (n : Int) (hc : ¬ IsDigit c) :
    Atoi.loop (c :: rest) n = none := by
  unfold IsDigit at hc
  rw [Atoi.loop, if_neg hc]

theorem length_le_utf8Len (cs : List Char) : cs.length ≤ String.utf8Len cs := by
  induction cs with
  | nil => simp
  | cons c cs ih =>
    rw [String.utf8Len_cons, List.length_cons]
    have := Char.utf8Size_pos c
    omega

theorem head?_beq_false (body : List Char) (c : Char)
    (h : body.head? ≠ some c) : (body.head? == some c) = false := by
  simpa using h

/-- The fast path of `Atoi` on a string read as a sign and a body. -/
theorem fast_eq (sg body : List Char) (neg : Bool) (hsg : IsSign sg neg body) :
    Atoi.fast (sg ++ body) =
      if sg ≠ [] ∧ body = [] then (0, some Err.ErrSyntax)
      else
        match Atoi.loop body 0 with
        | none => (0, some Err.ErrSyntax)
        | some n => (if neg then -n else n, none) := by
  rcases hsg with ⟨rfl, rfl, h1, h2⟩ | ⟨rfl, rfl⟩ | ⟨rfl, rfl⟩
  · unfold Atoi.fast
    simp only [List.nil_append, head?_beq_false body '+' h1, head?_beq_false body '-' h2]
    simp
  · unfold Atoi.fast
    simp
  · unfold Atoi.fast
    simp

/-- What `ParseInt` does on a non-empty string read as a sign and a body. -/
theorem ParseInt_eq (IntSize : Nat) (sg body : List Char) (neg : Bool)
    (hsg : IsSign sg neg body) (hne : sg ++ body ≠ []) :
    ParseInt IntSize (sg ++ body) = ParseInt.signed IntSize neg (ParseUint IntSize body) := by
  rcases hsg with ⟨rfl, rfl, h1, h2⟩ | ⟨rfl, rfl⟩ | ⟨rfl, rfl⟩
  · unfold ParseInt
    rw [if_neg hne]
    simp only [List.nil_append, head?_beq_false body '-' h2, if_neg h1, if_neg h2]
  · unfold ParseInt
    simp
  · unfold ParseInt
    simp

/-- What `ParseUint` returns on a run of digits followed by the end of the string
or by a character that is not a digit. -/
theorem ParseUint_eq (IntSize : Nat) (hsz : IntSize = 32 ∨ IntSize = 64) (ds rest : List Char)
    (hds : ∀ c ∈ ds, IsDigit c) (hrest : ∀ c ∈ rest.head?, ¬ IsDigit c) :
    ParseUint IntSize (ds ++ rest) =
      if decimal ds > 2 ^ IntSize - 1 then (2 ^ IntSize - 1, some Err.ErrRange)
      else if ds = [] ∨ rest ≠ [] then (0, some Err.ErrSyntax)
      else (decimal ds, none) := by
  have hmod : (2 ^ IntSize - 1) % 2 ^ 64 = 2 ^ IntSize - 1 := by
    rcases hsz with rfl | rfl <;> norm_num
  have hlt : 2 ^ IntSize - 1 < 2 ^ 64 := by
    rcases hsz with rfl | rfl <;> norm_num
  unfold ParseUint
  by_cases hnil : ds ++ rest = []
  · obtain ⟨h1, h2⟩ := List.append_eq_nil.mp hnil
    subst h1 h2
    simp [decimal, decimalFrom]
  · rw [if_neg hnil, hmod, uloop_digits _ hlt ds rest 0 hds (Nat.zero_le _)]
    unfold decimal
    by_cases hover : decimalFrom 0 ds ≤ 2 ^ IntSize - 1
    · rw [if_pos hover, if_neg (by omega)]
      cases rest with
      | nil =>
        have hds0 : ds ≠ [] := by simpa using hnil
        simp [ParseUint.loop, hds0]
      | cons c tl =>
        have hc : ¬ IsDigit c := hrest c (by simp)
        rw [uloop_bad _ c tl _ hc]
        simp
    · rw [if_neg hover, if_pos (by omega)]

theorem int64_eq (x : Int) :
    int64 x = (x + 9223372036854775808) % 18446744073709551616 - 9223372036854775808 := by
  unfold int64
  norm_num

theorem int_64 (x : Int) : int 64 x = int64 x := rfl

theorem int_32 (x : Int) : int 32 x = (x + 2147483648) % 4294967296 - 2147483648 := by
  unfold int
  norm_num

theorem signed_ok64 (neg : Bool) (v : Nat)
    (hv : v ≤ 18446744073709551615) :
    (int 64 (ParseInt.signed 64 neg (v, none)).1,
        (ParseInt.signed 64 neg (v, none)).2) =
      if (neg = false ∧ v ≥ 9223372036854775808) ∨ (neg = true ∧ v > 9223372036854775808) then
        (limit 64 neg, some Err.ErrRange)
      else (if neg then -(v : Int) else (v : Int), none) := by
  have e1 : 2 ^ (64 - 1) % 2 ^ 64 = 9223372036854775808 := by norm_num
  have l1 : limit 64 false = 9223372036854775807 := by unfold limit; norm_num
  have l2 : limit 64 true = -9223372036854775808 := by unfold limit; norm_num
  have c1 : ((9223372036854775808 - 1 : Nat) : Int) = 9223372036854775807 := by norm_num
  have c2 : ((9223372036854775808 : Nat) : Int) = 9223372036854775808 := by norm_num
  unfold ParseInt.signed
  simp only [e1, int_64]
  cases neg
  · simp only [Bool.not_false, true_and, Bool.false_eq_true, false_and, or_false, if_false, l1, c1]
    split_ifs with h
    · simp only [int64_eq, Prod.mk.injEq, and_true]
      omega
    · simp only [int64_eq, Prod.mk.injEq, and_true]
      omega
  · simp only [Bool.not_true, Bool.false_eq_true, Bool.true_eq_false, false_and, true_and,
      false_or, if_false, if_true, l2, c2]
    split_ifs with h
    · simp only [int64_eq, Prod.mk.injEq, and_true]
      omega
    · simp only [int64_eq, Prod.mk.injEq, and_true]
      omega

theorem signed_ok32 (neg : Bool) (v : Nat)
    (hv : v ≤ 4294967295) :
    (int 32 (ParseInt.signed 32 neg (v, none)).1,
        (ParseInt.signed 32 neg (v, none)).2) =
      if (neg = false ∧ v ≥ 2147483648) ∨ (neg = true ∧ v > 2147483648) then
        (limit 32 neg, some Err.ErrRange)
      else (if neg then -(v : Int) else (v : Int), none) := by
  have e1 : 2 ^ (32 - 1) % 2 ^ 64 = 2147483648 := by norm_num
  have l1 : limit 32 false = 2147483647 := by unfold limit; norm_num
  have l2 : limit 32 true = -2147483648 := by unfold limit; norm_num
  have c1 : ((2147483648 - 1 : Nat) : Int) = 2147483647 := by norm_num
  have c2 : ((2147483648 : Nat) : Int) = 2147483648 := by norm_num
  unfold ParseInt.signed
  simp only [e1]
  cases neg
  · simp only [Bool.not_false, true_and, Bool.false_eq_true, false_and, or_false, if_false, l1, c1]
    split_ifs with h
    · simp only [int64_eq, int_32, Prod.mk.injEq, and_true]
      omega
    · simp only [int64_eq, int_32, Prod.mk.injEq, and_true]
      omega
  · simp only [Bool.not_true, Bool.false_eq_true, Bool.true_eq_false, false_and, true_and,
      false_or, if_false, if_true, l2, c2]
    split_ifs with h
    · simp only [int64_eq, int_32, Prod.mk.injEq, and_true]
      omega
    · simp only [int64_eq, int_32, Prod.mk.injEq, and_true]
      omega

/-- The range check of `ParseInt` followed by the conversion to `int`, on a value
that `ParseUint` read without error. -/
theorem signed_ok (IntSize : Nat) (hsz : IntSize = 32 ∨ IntSize = 64) (neg : Bool) (v : Nat)
    (hv : v ≤ 2 ^ IntSize - 1) :
    (int IntSize (ParseInt.signed IntSize neg (v, none)).1,
        (ParseInt.signed IntSize neg (v, none)).2) =
      if (neg = false ∧ v ≥ 2 ^ (IntSize - 1)) ∨ (neg = true ∧ v > 2 ^ (IntSize - 1)) then
        (limit IntSize neg, some Err.ErrRange)
      else (if neg then -(v : Int) else (v : Int), none) := by
  rcases hsz with rfl | rfl
  · have h := signed_ok32 neg v (by norm_num at hv; exact hv)
    norm_num at h ⊢
    exact h
  · have h := signed_ok64 neg v (by norm_num at hv; exact hv)
    norm_num at h ⊢
    exact h

/-- The range check of `ParseInt` followed by the conversion to `int`, on the
range error of `ParseUint`. -/
theorem signed_range (IntSize : Nat) (hsz : IntSize = 32 ∨ IntSize = 64) (neg : Bool) :
    (int IntSize (ParseInt.signed IntSize neg (2 ^ IntSize - 1, some Err.ErrRange)).1,
        (ParseInt.signed IntSize neg (2 ^ IntSize - 1, some Err.ErrRange)).2) =
      (limit IntSize neg, some Err.ErrRange) := by
  rcases hsz with rfl | rfl <;> cases neg <;> rfl

/-- The syntax error of `ParseUint` is passed on, with the value 0. -/
theorem signed_bad (IntSize : Nat) (hsz : IntSize = 32 ∨ IntSize = 64) (neg : Bool) :
    (int IntSize (ParseInt.signed IntSize neg (0, some Err.ErrSyntax)).1,
        (ParseInt.signed IntSize neg (0, some Err.ErrSyntax)).2) = (0, some Err.ErrSyntax) := by
  rcases hsz with rfl | rfl <;> rfl


/-- On the fast path of `Atoi` the digits write a number that fits in an `int`. -/
theorem fast_bound (IntSize : Nat) (sg ds rest : List Char) (hds : ∀ c ∈ ds, IsDigit c)
    (hfast : (IntSize = 32 ∧ 0 < String.utf8Len (sg ++ (ds ++ rest)) ∧
        String.utf8Len (sg ++ (ds ++ rest)) < 10) ∨
      (IntSize = 64 ∧ 0 < String.utf8Len (sg ++ (ds ++ rest)) ∧
        String.utf8Len (sg ++ (ds ++ rest)) < 19)) :
    decimal ds < 2 ^ (IntSize - 1) := by
  have hlen := length_le_utf8Len (sg ++ (ds ++ rest))
  rw [List.length_append, List.length_append] at hlen
  have hlt := decimal_lt ds hds
  rcases hfast with ⟨rfl, _, h⟩ | ⟨rfl, _, h⟩
  · have h9 : ds.length ≤ 9 := by omega
    have hp : 10 ^ ds.length ≤ 10 ^ 9 := Nat.pow_le_pow_right (by norm_num) h9
    have e : (2 : Nat) ^ (32 - 1) = 2147483648 := by norm_num
    rw [e]
    norm_num at hp
    omega
  · have h18 : ds.length ≤ 18 := by omega
    have hp : 10 ^ ds.length ≤ 10 ^ 18 := Nat.pow_le_pow_right (by norm_num) h18
    have e : (2 : Nat) ^ (64 - 1) = 9223372036854775808 := by norm_num
    rw [e]
    norm_num at hp
    omega

/-- What `Atoi` returns on a non-empty string, read as an optional sign, a run of
digits and a rest that does not begin with a digit. -/
theorem Atoi_eq (IntSize : Nat) (hsz : IntSize = 32 ∨ IntSize = 64) (sg ds rest : List Char)
    (neg : Bool) (hsg : IsSign sg neg (ds ++ rest)) (hds : ∀ c ∈ ds, IsDigit c)
    (hrest : ∀ c ∈ rest.head?, ¬ IsDigit c) (hne : sg ++ (ds ++ rest) ≠ []) :
    Atoi IntSize ⟨sg ++ (ds ++ rest)⟩ =
      if decimal ds > 2 ^ IntSize - 1 then (limit IntSize neg, some Err.ErrRange)
      else if ds = [] ∨ rest ≠ [] then (0, some Err.ErrSyntax)
      else if (neg = false ∧ decimal ds ≥ 2 ^ (IntSize - 1)) ∨
          (neg = true ∧ decimal ds > 2 ^ (IntSize - 1)) then
        (limit IntSize neg, some Err.ErrRange)
      else (if neg then -(decimal ds : Int) else (decimal ds : Int), none) := by
  have hb2 : 2 ^ (IntSize - 1) ≤ 2 ^ IntSize - 1 := by
    rcases hsz with rfl | rfl <;> norm_num
  unfold Atoi
  simp only [String.utf8ByteSize_mk]
  by_cases hfast : (IntSize = 32 ∧ 0 < String.utf8Len (sg ++ (ds ++ rest)) ∧
        String.utf8Len (sg ++ (ds ++ rest)) < 10) ∨
      (IntSize = 64 ∧ 0 < String.utf8Len (sg ++ (ds ++ rest)) ∧
        String.utf8Len (sg ++ (ds ++ rest)) < 19)
  · rw [if_pos hfast, fast_eq sg _ neg hsg]
    have hb := fast_bound IntSize sg ds rest hds hfast
    have hloop : Atoi.loop (ds ++ rest) 0 = Atoi.loop rest (decimal ds : Int) := by
      have := fast_digits ds rest 0 hds
      simpa [decimal] using this
    have hno : ¬ decimal ds > 2 ^ IntSize - 1 := by omega
    rw [hloop]
    by_cases hsyn : ds = [] ∨ rest ≠ []
    · simp only [hno, hsyn, if_true, if_false]
      cases rest with
      | nil =>
        have hds0 : ds = [] := by simpa using hsyn
        subst hds0
        have hsg0 : sg ≠ [] := by simpa using hne
        rw [if_pos ⟨hsg0, rfl⟩]
      | cons c tl =>
        have hc : ¬ IsDigit c := hrest c (by simp)
        rw [fast_bad c tl _ hc]
        simp
    · have hrest0 : rest = [] := by
        by_contra h
        exact hsyn (Or.inr h)
      have hds0 : ds ≠ [] := fun h => hsyn (Or.inl h)
      subst hrest0
      have hno2 : ¬ ((neg = false ∧ decimal ds ≥ 2 ^ (IntSize - 1)) ∨
          (neg = true ∧ decimal ds > 2 ^ (IntSize - 1))) := by
        rintro (⟨_, h⟩ | ⟨_, h⟩) <;> omega
      simp only [hno, hsyn, hno2, if_false]
      rw [if_neg (by simp [hds0])]
      rfl
  · rw [if_neg hfast, ParseInt_eq IntSize sg _ neg hsg hne, ParseUint_eq IntSize hsz ds rest hds hrest]
    by_cases hover : decimal ds > 2 ^ IntSize - 1
    · rw [if_pos hover, if_pos hover]
      exact signed_range IntSize hsz neg
    · rw [if_neg hover, if_neg hover]
      by_cases hsyn : ds = [] ∨ rest ≠ []
      · rw [if_pos hsyn, if_pos hsyn]
        exact signed_bad IntSize hsz neg
      · rw [if_neg hsyn, if_neg hsyn]
        exact signed_ok IntSize hsz neg (decimal ds) (by omega)


/-- Every string reads as an optional sign, a run of digits, and a rest that is
empty or begins with a character that is not a digit. -/
theorem exists_parts (cs : List Char) :
    ∃ (sg ds rest : List Char) (neg : Bool), cs = sg ++ (ds ++ rest) ∧
      IsSign sg neg (ds ++ rest) ∧ (∀ c ∈ ds, IsDigit c) ∧ (∀ c ∈ rest.head?, ¬ IsDigit c) := by
  have hbody : ∀ body : List Char, ∃ ds rest : List Char, body = ds ++ rest ∧
      (∀ c ∈ ds, IsDigit c) ∧ (∀ c ∈ rest.head?, ¬ IsDigit c) := by
    intro body
    refine ⟨body.takeWhile (fun c => decide (IsDigit c)),
      body.dropWhile (fun c => decide (IsDigit c)), ?_, ?_, ?_⟩
    · rw [List.takeWhile_append_dropWhile]
    · intro c hc
      have := List.mem_takeWhile_imp hc
      simpa using this
    · intro c hc
      have h := List.head?_dropWhile_not (fun c => decide (IsDigit c)) body
      rw [Option.mem_def.mp hc] at h
      simpa using h
  by_cases hplus : cs.head? = some '+'
  · obtain ⟨ds, rest, hb, h1, h2⟩ := hbody cs.tail
    refine ⟨['+'], ds, rest, false, ?_, Or.inr (Or.inl ⟨rfl, rfl⟩), h1, h2⟩
    rw [← hb]
    cases cs with
    | nil => simp at hplus
    | cons c tl =>
      simp only [List.head?_cons, Option.some.injEq] at hplus
      rw [hplus]
      rfl
  · by_cases hminus : cs.head? = some '-'
    · obtain ⟨ds, rest, hb, h1, h2⟩ := hbody cs.tail
      refine ⟨['-'], ds, rest, true, ?_, Or.inr (Or.inr ⟨rfl, rfl⟩), h1, h2⟩
      rw [← hb]
      cases cs with
      | nil => simp at hminus
      | cons c tl =>
        simp only [List.head?_cons, Option.some.injEq] at hminus
        rw [hminus]
        rfl
    · obtain ⟨ds, rest, hb, h1, h2⟩ := hbody cs
      refine ⟨[], ds, rest, false, ?_, Or.inl ⟨rfl, rfl, ?_, ?_⟩, h1, h2⟩
      · rw [← hb]
        rfl
      · rw [← hb]
        exact hplus
      · rw [← hb]
        exact hminus


end strconv

/-! ## Properties of the address handed to `http.ListenAndServe` -/

namespace strconv

theorem digitChar_isDigit (k : Nat) (hk : k < 10) :
    IsDigit (Nat.digitChar k) ∧ (Nat.digitChar k).toNat - 48 = k := by
  interval_cases k <;> decide

theorem decimal_snoc (pre : List Char) (c : Char) :
    decimal (pre ++ [c]) = decimal pre * 10 + (c.toNat - 48) := by
  simp [decimal, decimalFrom, List.foldl_append]

/-- The digits that Lean prints for a natural number are decimal digits and write
that number. -/
theorem toDigitsCore_spec (fuel : Nat) : ∀ (n : Nat) (ds : List Char), n < fuel →
    ∃ pre, Nat.toDigitsCore 10 fuel n ds = pre ++ ds ∧ pre ≠ [] ∧
      (∀ c ∈ pre, IsDigit c) ∧ decimal pre = n := by
  induction fuel with
  | zero => intro n ds h; omega
  | succ fuel ih =>
    intro n ds h
    obtain ⟨hd, hv⟩ := digitChar_isDigit (n % 10) (Nat.mod_lt _ (by norm_num))
    rw [Nat.toDigitsCore]
    by_cases h0 : n / 10 = 0
    · simp only [h0, if_true]
      refine ⟨[Nat.digitChar (n % 10)], rfl, by simp, ?_, ?_⟩
      · intro c hc
        rw [List.mem_singleton.mp hc]
        exact hd
      · have := decimal_snoc [] (Nat.digitChar (n % 10))
        rw [List.nil_append] at this
        rw [this, hv]
        simp only [decimal, decimalFrom, List.foldl_nil]
        omega
    · simp only [h0, if_false]
      obtain ⟨pre, hpre, _, hds, hval⟩ := ih (n / 10) (Nat.digitChar (n % 10) :: ds) (by omega)
      refine ⟨pre ++ [Nat.digitChar (n % 10)], ?_, by simp, ?_, ?_⟩
      · rw [hpre]
        simp
      · intro c hc
        rcases List.mem_append.mp hc with h1 | h1
        · exact hds c h1
        · rw [List.mem_singleton.mp h1]
          exact hd
      · rw [decimal_snoc, hval, hv]
        omega

theorem toDigits_spec (n : Nat) :
    Nat.toDigits 10 n ≠ [] ∧ (∀ c ∈ Nat.toDigits 10 n, IsDigit c) ∧
      decimal (Nat.toDigits 10 n) = n := by
  obtain ⟨pre, hpre, hne, hds, hval⟩ := toDigitsCore_spec (n + 1) n [] (by omega)
  rw [List.append_nil] at hpre
  unfold Nat.toDigits
  rw [hpre]
  exact ⟨hne, hds, hval⟩

end strconv

namespace net

open strconv

/-- The loop of `parsePort` reads a run of digits that writes a valid port without
clamping or wrapping. -/
theorem parsePort_loop_digits (ds : List Char) (n : Nat) (hds : ∀ c ∈ ds, IsDigit c)
    (hle : decimalFrom n ds ≤ 65535) : parsePort.loop ds n = some (decimalFrom n ds) := by
  induction ds generalizing n with
  | nil => rfl
  | cons c cs ih =>
    have hc : IsDigit c := hds c (List.mem_cons_self _ _)
    have hcs : ∀ x ∈ cs, IsDigit x := fun x hx => hds x (List.mem_cons_of_mem _ hx)
    rw [decimalFrom_cons] at hle ⊢
    have hge := decimalFrom_ge cs (n * 10 + (c.toNat - 48))
    unfold IsDigit at hc
    rw [parsePort.loop, if_pos hc]
    norm_num
    rw [if_neg (by omega)]
    have h10 : n * 10 % 4294967296 = n * 10 := Nat.mod_eq_of_lt (by omega)
    have h1 : (n * 10 + (c.toNat - 48)) % 4294967296 = n * 10 + (c.toNat - 48) :=
      Nat.mod_eq_of_lt (by omega)
    rw [h10, h1, if_neg (by omega)]
    exact ih _ hcs hle

/-- The port that a run of decimal digits writing a valid port stands for. -/
theorem parsePort_digits (ds : List Char) (hne : ds ≠ []) (hds : ∀ c ∈ ds, IsDigit c)
    (hle : decimal ds ≤ 65535) : parsePort ds = some (decimal ds : Int) := by
  cases ds with
  | nil => exact absurd rfl hne
  | cons c tl =>
    have hc : IsDigit c := hds c (List.mem_cons_self _ _)
    have hplus : c ≠ '+' := by
      rintro rfl
      exact absurd hc (by decide)
    have hminus : c ≠ '-' := by
      rintro rfl
      exact absurd hc (by decide)
    unfold parsePort
    rw [if_neg hne]
    simp only [List.head?_cons, Option.some.injEq, hplus, hminus, if_false]
    rw [parsePort_loop_digits (c :: tl) 0 hds hle]
    have hlt : ¬ 1073741824 ≤ decimalFrom 0 (c :: tl) := by
      unfold decimal at hle
      omega
    simp [hminus, hlt, decimal]

end net

namespace http

open strconv net

/-- What `ListenAndServe` does with the address that `fmt.Sprintf(":%d", port)`
builds for a valid port: the server listens when the operating system lets it. -/
theorem ListenAndServe_of_port (canListen : Int → Bool) (n : Nat) (hn : n ≤ 65535) :
    ListenAndServe canListen (":" ++ toString (Int.ofNat n)) =
      if canListen n then none else some ListenError.Refused := by
  obtain ⟨hne, hds, hval⟩ := toDigits_spec n
  have hdata : (":" ++ toString (Int.ofNat n)).data = ':' :: Nat.toDigits 10 n := rfl
  unfold ListenAndServe
  rw [hdata]
  simp only
  unfold LookupPort
  rw [parsePort_digits _ hne hds (by omega), hval]
  simp only
  rw [if_neg (by omega)]

end http

/-! ## The claim about the configuration example -/

namespace env

open strconv

/-- When `MY_SERVER_PORT` is not empty, `main` takes the port that `Atoi` returns,
logs the error that `Atoi` returns, and hands the address built from that port to
`http.ListenAndServe`. -/
theorem main_of_value (IntSize : Nat) (canListen : Int → Bool) (s : String)
    (hs : s.data ≠ []) :
    main IntSize canListen (environWith (some s)) =
      ⟨⟨(Atoi IntSize s).1⟩, (Atoi IntSize s).2, ":" ++ toString (Atoi IntSize s).1,
        http.ListenAndServe canListen (":" ++ toString (Atoi IntSize s).1)⟩ := by
  have hlen : s.utf8ByteSize > 0 := by
    obtain ⟨cs⟩ := s
    rw [String.utf8ByteSize_mk]
    have : String.utf8Len cs ≠ 0 := fun h => hs (String.utf8Len_eq_zero.mp h)
    omega
  have hget : os.Getenv (environWith (some s)) "MY_SERVER_PORT" = s := by
    simp [os.Getenv, environWith]
  unfold main
  simp only [hget, hlen, if_true, config]

/-- C10 (as stated, refuted): with `MY_SERVER_PORT=99999999999999999999`, a decimal
integer that `Atoi` cannot return, the port is neither that integer nor 0: it is
the largest `int`, the range error is logged, the address is not `:0`, and no
server is started on it even when the operating system allows every port:
`http.ListenAndServe` returns "invalid port" and `log.Fatal` ends the process. -/
theorem C10_out_of_range_port_is_largest_int :
    main 64 anyPort (environWith (some "99999999999999999999"))
      = ⟨⟨9223372036854775807⟩, some Err.ErrRange, ":9223372036854775807",
          some net.ListenError.InvalidPort⟩ ∧
    main 32 anyPort (environWith (some "99999999999999999999"))
      = ⟨⟨2147483647⟩, some Err.ErrRange, ":2147483647", some net.ListenError.InvalidPort⟩ ∧
    (main 64 anyPort (environWith (some "99999999999999999999"))).config.Port
      ≠ 99999999999999999999 ∧
    (main 64 anyPort (environWith (some "99999999999999999999"))).config.Port ≠ 0 ∧
    (main 64 anyPort (environWith (some "99999999999999999999"))).addr ≠ ":0" ∧
    (main 64 anyPort (environWith (some "99999999999999999999"))).fatal ≠ none := by
  decide

/-- C10 (amended): for an `int` of 32 or of 64 bits, what `main` of `env.go` does is
the following function of `MY_SERVER_PORT`. Not set, or empty: the port stays 3000,
nothing is logged and the server listens on `:3000`. An optional sign followed by
decimal digits, writing the integer `n`: when `n` fits in an `int` the port is `n`,
nothing is logged and the address is `:` followed by `n`, on which the server
listens when `n` is a valid port, 0 to 65535; when `n` does not fit, the port is
the largest `int` (the smallest after a minus sign), the range error is logged,
`http.ListenAndServe` rejects the address as an invalid port and `log.Fatal` ends
the process: no server is started. Anything else that is not empty (no digit, or
a character that is not a digit after the digits): the port is overwritten with 0,
the syntax error is only logged and the server listens on `:0`; unless the digits
before the first character that is not one already exceed the largest unsigned
integer of the size of `int`, in which case the run is that of a range error.
"Listens" is meant for an operating system that lets the process listen on the
port; otherwise `http.ListenAndServe` returns that refusal. Every value of the
variable has one of these forms. -/
theorem C10_port_is_a_function_of_MY_SERVER_PORT (IntSize : Nat)
    (hsz : IntSize = 32 ∨ IntSize = 64) (canListen : Int → Bool) :
    main IntSize canListen (environWith none)
      = ⟨⟨3000⟩, none, ":3000",
          if canListen 3000 then none else some net.ListenError.Refused⟩ ∧
    main IntSize canListen (environWith (some ""))
      = ⟨⟨3000⟩, none, ":3000",
          if canListen 3000 then none else some net.ListenError.Refused⟩ ∧
    (∀ (sg ds : List Char) (neg : Bool) (n : Int),
      IsSign sg neg ds → ds ≠ [] → (∀ c ∈ ds, IsDigit c) →
      n = (if neg then -(decimal ds : Int) else (decimal ds : Int)) →
      (-(2 ^ (IntSize - 1)) ≤ n ∧ n < 2 ^ (IntSize - 1) →
        main IntSize canListen (environWith (some ⟨sg ++ ds⟩))
          = ⟨⟨n⟩, none, ":" ++ toString n,
              http.ListenAndServe canListen (":" ++ toString n)⟩ ∧
        (0 ≤ n ∧ n ≤ 65535 →
          http.ListenAndServe canListen (":" ++ toString n)
            = if canListen n then none else some net.ListenError.Refused)) ∧
      (¬ (-(2 ^ (IntSize - 1)) ≤ n ∧ n < 2 ^ (IntSize - 1)) →
        main IntSize canListen (environWith (some ⟨sg ++ ds⟩))
          = ⟨⟨limit IntSize neg⟩, some Err.ErrRange, ":" ++ toString (limit IntSize neg),
              some net.ListenError.InvalidPort⟩)) ∧
    (∀ (sg ds rest : List Char) (neg : Bool),
      IsSign sg neg (ds ++ rest) → (∀ c ∈ ds, IsDigit c) → (∀ c ∈ rest.head?, ¬ IsDigit c) →
      (ds = [] ∨ rest ≠ []) → sg ++ (ds ++ rest) ≠ [] →
      (decimal ds ≤ 2 ^ IntSize - 1 →
        main IntSize canListen (environWith (some ⟨sg ++ (ds ++ rest)⟩))
          = ⟨⟨0⟩, some Err.ErrSyntax, ":0",
              if canListen 0 then none else some net.ListenError.Refused⟩) ∧
      (decimal ds > 2 ^ IntSize - 1 →
        main IntSize canListen (environWith (some ⟨sg ++ (ds ++ rest)⟩))
          = ⟨⟨limit IntSize neg⟩, some Err.ErrRange, ":" ++ toString (limit IntSize neg),
              some net.ListenError.InvalidPort⟩)) ∧
    (∀ value : String, ∃ (sg ds rest : List Char) (neg : Bool),
      value = ⟨sg ++ (ds ++ rest)⟩ ∧ IsSign sg neg (ds ++ rest) ∧
      (∀ c ∈ ds, IsDigit c) ∧ (∀ c ∈ rest.head?, ¬ IsDigit c)) := by
  have hlimit : ∀ neg : Bool,
      http.ListenAndServe canListen (":" ++ toString (limit IntSize neg))
        = some net.ListenError.InvalidPort := by
    intro neg
    rcases hsz with rfl | rfl <;> cases neg <;> rfl
  refine ⟨rfl, rfl, ?_, ?_, ?_⟩
  rotate_right
  · intro value
    obtain ⟨sg, ds, rest, neg, h1, h2, h3, h4⟩ := exists_parts value.data
    exact ⟨sg, ds, rest, neg, String.ext h1, h2, h3, h4⟩
  · intro sg ds neg n hsg hne hds hn
    have hsg2 : IsSign sg neg (ds ++ []) := by rw [List.append_nil]; exact hsg
    have hne2 : sg ++ (ds ++ []) ≠ [] := by simp [hne]
    have hA := Atoi_eq IntSize hsz sg ds [] neg hsg2 hds (by simp) hne2
    have hsyn : ¬ (ds = [] ∨ ([] : List Char) ≠ []) := by simp [hne]
    rw [if_neg hsyn] at hA
    have hM := main_of_value IntSize canListen ⟨sg ++ (ds ++ [])⟩ hne2
    rw [List.append_nil] at hA hM
    have hpow : (2 : Int) ^ (IntSize - 1) = ((2 ^ (IntSize - 1) : Nat) : Int) := by
      push_cast
      rfl
    have hb2 : 2 ^ (IntSize - 1) ≤ 2 ^ IntSize - 1 := by
      rcases hsz with rfl | rfl <;> norm_num
    have hpos : 0 < 2 ^ (IntSize - 1) := Nat.two_pow_pos _
    rw [hpow]
    constructor
    · rintro ⟨h1, h2⟩
      have hno : ¬ decimal ds > 2 ^ IntSize - 1 := by
        cases neg <;> simp only [Bool.false_eq_true, if_false, if_true] at hn <;> omega
      have hno2 : ¬ ((neg = false ∧ decimal ds ≥ 2 ^ (IntSize - 1)) ∨
          (neg = true ∧ decimal ds > 2 ^ (IntSize - 1))) := by
        rintro (⟨rfl, h⟩ | ⟨rfl, h⟩) <;>
          simp only [Bool.false_eq_true, if_false, if_true] at hn <;> omega
      rw [if_neg hno, if_neg hno2] at hA
      refine ⟨by rw [hM, hA, hn], ?_⟩
      rintro ⟨h0, h65⟩
      obtain ⟨m, rfl⟩ := Int.eq_ofNat_of_zero_le h0
      exact http.ListenAndServe_of_port canListen m (by omega)
    · intro hout
      have hlim : Atoi IntSize ⟨sg ++ ds⟩ = (limit IntSize neg, some Err.ErrRange) := by
        rw [hA]
        by_cases hover : decimal ds > 2 ^ IntSize - 1
        · rw [if_pos hover]
        · rw [if_neg hover, if_pos]
          by_contra hno2
          apply hout
          cases neg <;> simp only [Bool.false_eq_true, if_false, if_true] at hn <;>
            simp at hno2 <;> omega
      rw [hM, hlim]
      simp only [hlimit neg]
  · intro sg ds rest neg hsg hds hrest hsyn hne
    have hA := Atoi_eq IntSize hsz sg ds rest neg hsg hds hrest hne
    have hM := main_of_value IntSize canListen ⟨sg ++ (ds ++ rest)⟩ hne
    constructor
    · intro hle
      rw [if_neg (by omega), if_pos hsyn] at hA
      rw [hM, hA]
      rfl
    · intro hover
      rw [if_pos hover] at hA
      rw [hM, hA]
      simp only [hlimit neg]

/-- C10 (amended), at concrete inputs on a 64-bit platform whose operating system
allows every port: `8080` gives port 8080 and a listening server; `abc` gives port
0, a logged syntax error and a server listening on `:0`; `-9223372036854775809`
gives the smallest `int`, a logged range error and no server. -/
theorem C10_port_is_a_function_of_MY_SERVER_PORT_witness :
    main 64 anyPort (environWith (some "8080")) = ⟨⟨8080⟩, none, ":8080", none⟩ ∧
    main 64 anyPort (environWith (some "abc")) = ⟨⟨0⟩, some Err.ErrSyntax, ":0", none⟩ ∧
    main 64 anyPort (environWith (some "-9223372036854775809"))
      = ⟨⟨-9223372036854775808⟩, some Err.ErrRange, ":-9223372036854775808",
          some net.ListenError.InvalidPort⟩ :=
  have h := C10_port_is_a_function_of_MY_SERVER_PORT 64 (Or.inr rfl) anyPort
  have h1 := (h.2.2.1 [] ['8', '0', '8', '0'] false 8080 (by decide) (by decide) (by decide)
    (by decide)).1 (by decide)
  ⟨h1.1.trans (by rw [h1.2 (by decide)]; rfl),
    (h.2.2.2.1 [] [] ['a', 'b', 'c'] false (by decide) (by decide) (by decide) (by decide)
      (by decide)).1 (by decide),
    (h.2.2.1 ['-'] "9223372036854775809".data true (-9223372036854775809) (by decide)
      (by decide) (by decide) (by decide)).2 (by decide)⟩

end env
